import Mathlib

/-!
Verification of the paged dynamic-array container in
src/chunked_vector/chunked_vector.h (class dod::chunked_vector, the final
definition in the header).  The container stores elements in fixed-size
pages of PAGE_SIZE slots reached through a growable page table.

Shallow embedding conventions:
* A page is a partial map from slot index to element: a slot holds
  some a when a constructed object lives there and none when the slot is
  raw (uninitialized or destructed) memory.
* The page table m_pages is a total function from page index to
  Option (Page): none models a null page pointer (or a slot outside the
  table).  Allocation is modeled as always succeeding (the C++ code never
  checks allocation results, see spec section 7).
* size_type is std::size_t, 64 bits on the targeted platforms; all counts
  are Nat, and the one computation whose overflow behaviour the spec calls
  out (calculate_page_growth) is modeled with explicit wrap-around mod
  2^64.  sizeof(T*) is 8 on the 64-bit targets.
* dod::construct at a slot is modeled as writing some value,
  dod::destruct as writing none (end of object lifetime).  For the
  trivially-destructible fast paths the C++ skips the destructor call and
  leaves dead bytes in place; the model always uses the general
  (non-trivial) path, which has the same logical contents (slots below
  m_size).
* The C++ while loops advance by a per-page batch of at least one element;
  they are embedded as structurally recursive functions on an explicit
  fuel argument that the caller sets to the total element count, which a
  progress argument shows is enough fuel.
-/

namespace ChunkedVec

/-- Word size of size_type (std::size_t), 2^64 on the targeted platforms. -/
def W : Nat := 2 ^ 64

/-- Size of a page pointer T* in bytes on the 64-bit targets (sizeof(T*)). -/
def PTR_BYTES : Nat := 8

/-- Constant SAFETY_MARGIN = 16 from the source. -/
def SAFETY_MARGIN : Nat := 16

/-- A page: PAGE_SIZE slots, each either a live object (some) or raw memory
(none).  The model keeps the map total on Nat; slots at or above PAGE_SIZE
are never touched by the operations. -/
abbrev Page (α : Type) := Nat → Option α

/-- State of a dod::chunked_vector: the page table m_pages (none = null
pointer), m_page_count, m_page_capacity and m_size. -/
structure CV (α : Type) where
  pages : Nat → Option (Page α)
  page_count : Nat
  page_capacity : Nat
  size : Nat

/-- Default-constructed chunked_vector: all members zero / null. -/
def emptyCV {α : Type} : CV α := ⟨fun _ => none, 0, 0, 0⟩

/-- Read the slot m_pages[p][e].  Returns none when the page pointer is
null or the slot holds no constructed object. -/
def readSlot {α : Type} (v : CV α) (p e : Nat) : Option α :=
  match v.pages p with
  | none => none
  | some pg => pg e

/-- Write slot m_pages[p][e] := x.  construct is setSlot with some a,
destruct is setSlot with none.  When the page pointer is null the C++
would fault; the model leaves the state unchanged (never reached under the
container invariant). -/
def setSlot {α : Type} (v : CV α) (p e : Nat) (x : Option α) : CV α :=
  match v.pages p with
  | none => v
  | some pg =>
    { v with pages := fun q => if q = p then some (fun j => if j = e then x else pg j) else v.pages q }

/-- Helper count_trailing_zeros, loop body: while the value is even, halve
it and count.  Structural recursion on a fuel argument (the source loop
runs at most log2 of the value times; fuel = value is enough). -/
def ctzAux : Nat → Nat → Nat
  | 0, _ => 0
  | fuel + 1, v => if v % 2 = 0 then ctzAux fuel (v / 2) + 1 else 0

/-- Function count_trailing_zeros from the source: 0 for 0, otherwise the
number of trailing zero bits. -/
def count_trailing_zeros (v : Nat) : Nat :=
  if v = 0 then 0 else ctzAux v v

section Ops

variable (P : Nat)

/-- Function get_page_and_element_indices: maps a logical position to
(page index, slot index).  When PAGE_SIZE is a power of two (the source
tests PAGE_SIZE & (PAGE_SIZE - 1) == 0 at compile time) it uses
shift and mask, otherwise division and modulo. -/
def get_page_and_element_indices (pos : Nat) : Nat × Nat :=
  if P &&& (P - 1) = 0 then
    (pos >>> count_trailing_zeros P, pos &&& (P - 1))
  else
    (pos / P, pos % P)

/-- Read the element at logical position pos through
get_page_and_element_indices, as operator[] does. -/
def readIdx {α : Type} (v : CV α) (pos : Nat) : Option α :=
  let pe := get_page_and_element_indices P pos
  readSlot v pe.1 pe.2

/-- Read the element at logical position g using plain division/modulo, as
the erase loops do (src_idx / PAGE_SIZE, src_idx % PAGE_SIZE). -/
def readG {α : Type} (v : CV α) (g : Nat) : Option α :=
  readSlot v (g / P) (g % P)

/-- Member capacity(): m_page_count * PAGE_SIZE. -/
def capacity {α : Type} (v : CV α) : Nat := v.page_count * P

/-- Member max_page_capacity(): maximum size_type value divided by
sizeof(T*), minus SAFETY_MARGIN when that is possible. -/
def max_page_capacity : Nat :=
  let MAX_POINTERS := (W - 1) / PTR_BYTES
  if MAX_POINTERS > SAFETY_MARGIN then MAX_POINTERS - SAFETY_MARGIN else MAX_POINTERS

/-- Member max_size(): max_page_capacity() * PAGE_SIZE. -/
def max_size : Nat := max_page_capacity * P

/-- Member calculate_page_growth.  size_type arithmetic is modeled with
explicit wrap-around mod W: the guard subtraction max_capacity -
old_capacity / 2 and the sum old_capacity + old_capacity / 2 are the
expressions the spec calls out for overflow. -/
def calculate_page_growth {α : Type} (v : CV α) (pages_needed : Nat) : Nat :=
  let old_capacity := v.page_capacity
  let max_capacity := max_page_capacity
  if old_capacity > (max_capacity + W - (old_capacity / 2) % W) % W then
    max_capacity
  else
    let geometric := (old_capacity + old_capacity / 2) % W
    if geometric < pages_needed then pages_needed else geometric

/-- Member ensure_page_capacity: early exit when enough slots exist,
otherwise compute the new capacity (exactly pages_needed from a zero
capacity, geometric growth otherwise), copy the existing page pointers,
null-fill the rest and install the new table. -/
def ensure_page_capacity {α : Type} (v : CV α) (pages_needed : Nat) : CV α :=
  if pages_needed ≤ v.page_capacity then v
  else
    let new_page_capacity :=
      if v.page_capacity = 0 then
        (if pages_needed > 0 then pages_needed else 1)
      else
        calculate_page_growth v pages_needed
    { pages := fun i => if i < v.page_count then v.pages i else none
      page_count := v.page_count
      page_capacity := new_page_capacity
      size := v.size }

/-- Member allocate_page: installs a fresh page (all slots raw memory) at
page_idx and raises m_page_count to page_idx + 1 when needed.  Allocation
is modeled as always succeeding. -/
def allocate_page {α : Type} (v : CV α) (page_idx : Nat) : CV α :=
  { v with
    pages := fun q => if q = page_idx then some (fun _ => none) else v.pages q
    page_count := if page_idx ≥ v.page_count then page_idx + 1 else v.page_count }

/-- Member deallocate_page: frees the page at page_idx (pointer becomes
null; contents are gone). -/
def deallocate_page {α : Type} (v : CV α) (page_idx : Nat) : CV α :=
  { v with pages := fun q => if q = page_idx then none else v.pages q }

/-- Allocation loop of reserve: for i in [m_page_count, pages_needed)
allocate_page(i).  Since allocate_page(i) raises m_page_count to i + 1 in
lockstep with the loop counter, the loop equals: repeat (pages_needed -
m_page_count) times allocate_page(m_page_count). -/
def allocN {α : Type} : Nat → CV α → CV α
  | 0, v => v
  | fuel + 1, v => allocN fuel (allocate_page v v.page_count)

/-- Member reserve: no-op when the request fits, otherwise grow the page
table to ceil(n / PAGE_SIZE) slots and allocate the missing pages. -/
def reserve {α : Type} (v : CV α) (new_capacity : Nat) : CV α :=
  if new_capacity ≤ capacity P v then v
  else
    let pages_needed := (new_capacity + P - 1) / P
    let v1 := ensure_page_capacity v pages_needed
    allocN (pages_needed - v1.page_count) v1

/-- Member shrink_to_fit: frees every page at index at or above
ceil(m_size / PAGE_SIZE) and lowers m_page_count to that count.  The page
table array (m_page_capacity) is left untouched. -/
def shrink_to_fit {α : Type} (v : CV α) : CV α :=
  let pages_needed := (v.size + P - 1) / P
  let v1 := (List.range' pages_needed (v.page_count - pages_needed)).foldl
    (fun s i => deallocate_page s i) v
  { v1 with page_count := pages_needed }

/-- Page-batched fill loop shared by bulk_construct_with_value,
bulk_construct_default (x = some value) and by the destruction loops of
clear / shrink_to_size (x = none).  Each source loop walks the linear
range [cur, stop), and per iteration touches the batch of
min(stop - cur, PAGE_SIZE - cur % PAGE_SIZE) slots that lie in the current
page, in increasing slot order.  Structural recursion on fuel; the callers
pass fuel = stop - cur and every batch has at least one element when
PAGE_SIZE > 0. -/
def fillLoop {α : Type} : Nat → Nat → Nat → Option α → CV α → CV α
  | 0, _, _, _, v => v
  | fuel + 1, cur, stop, x, v =>
    if stop ≤ cur then v
    else
      let page_idx := cur / P
      let start_elem := cur % P
      let batch := min (stop - cur) (P - start_elem)
      let v1 := (List.range batch).foldl (fun s i => setSlot s page_idx (start_elem + i) x) v
      fillLoop fuel (cur + batch) stop x v1

/-- Member clear: destruct every live element (general, non-trivial path)
and reset m_size to 0.  Pages stay allocated. -/
def clear {α : Type} (v : CV α) : CV α :=
  { fillLoop P v.size 0 v.size none v with size := 0 }

/-- Helper shrink_to_size: destruct elements [new_size, m_size) page by
page (general path).  m_size itself is updated by the caller resize. -/
def shrink_to_size {α : Type} (v : CV α) (new_size : Nat) : CV α :=
  fillLoop P (v.size - new_size) new_size v.size none v

/-- Helper expand_to_size with an explicit value: reserve then
bulk_construct_with_value over [m_size, new_size). -/
def expand_to_size_val {α : Type} (v : CV α) (new_size : Nat) (a : α) : CV α :=
  let v1 := reserve P v new_size
  fillLoop P (new_size - v1.size) v1.size new_size (some a) v1

/-- Helper expand_to_size: reserve then bulk_construct_default over
[m_size, new_size).  A default-constructed T is modeled by
Inhabited.default (for the arithmetic fast path this is the zero-fill
value). -/
def expand_to_size {α : Type} [Inhabited α] (v : CV α) (new_size : Nat) : CV α :=
  let v1 := reserve P v new_size
  fillLoop P (new_size - v1.size) v1.size new_size (some default) v1

/-- Member resize(count): shrink or expand to count elements, then set
m_size = count. -/
def resize {α : Type} [Inhabited α] (v : CV α) (count : Nat) : CV α :=
  let v1 :=
    if count < v.size then shrink_to_size P v count
    else if v.size < count then expand_to_size P v count
    else v
  { v1 with size := count }

/-- Member resize(count, value). -/
def resizeVal {α : Type} (v : CV α) (count : Nat) (a : α) : CV α :=
  let v1 :=
    if count < v.size then shrink_to_size P v count
    else if v.size < count then expand_to_size_val P v count a
    else v
  { v1 with size := count }

/-- Helper ensure_capacity_for_one_more: when the page of slot m_size does
not exist yet, grow the page table to hold it and allocate it. -/
def ensure_capacity_for_one_more {α : Type} (v : CV α) : CV α :=
  let page_idx := v.size / P
  if page_idx ≥ v.page_count then
    allocate_page (ensure_page_capacity v (page_idx + 1)) page_idx
  else v

/-- Member emplace_back / push_back: make room, construct the element in
the slot of logical position m_size, increment m_size. -/
def emplace_back {α : Type} (v : CV α) (a : α) : CV α :=
  let v1 := ensure_capacity_for_one_more P v
  let pe := get_page_and_element_indices P v1.size
  { setSlot v1 pe.1 pe.2 (some a) with size := v1.size + 1 }

/-- Member pop_back: decrement m_size and destruct the top slot (general,
non-trivial path).  The source asserts m_size > 0; callers establish it. -/
def pop_back {α : Type} (v : CV α) : CV α :=
  let n := v.size - 1
  let pe := get_page_and_element_indices P n
  { setSlot v pe.1 pe.2 none with size := n }

/-- Inner batch loop of the erase shift: for i in [0, batch)
move-construct dst_page[dst_elem + i] from src_page[src_elem + i] and
destruct the source slot.  Arguments: batch count, source page and slot,
destination page and slot. -/
def batchMove {α : Type} : Nat → Nat → Nat → Nat → Nat → CV α → CV α
  | 0, _, _, _, _, v => v
  | k + 1, sp, se, dp, de, v =>
    let x := readSlot v sp se
    let v1 := setSlot v dp de x
    let v2 := setSlot v1 sp se none
    batchMove k sp (se + 1) dp (de + 1) v2

/-- Outer while loop of erase: while elements remain, compute the largest
batch that stays inside both the source page and the destination page,
move it, advance.  Structural recursion on fuel; erase passes fuel =
elements_to_move, enough because every batch moves at least one element
when PAGE_SIZE > 0. -/
def moveLoopF {α : Type} : Nat → Nat → Nat → Nat → CV α → CV α
  | 0, _, _, _, v => v
  | fuel + 1, elements_to_move, src_idx, dst_idx, v =>
    if elements_to_move = 0 then v
    else
      let sp := src_idx / P
      let se := src_idx % P
      let dp := dst_idx / P
      let de := dst_idx % P
      let batch := min elements_to_move (min (P - se) (P - de))
      let v1 := batchMove batch sp se dp de v
      moveLoopF fuel (elements_to_move - batch) (src_idx + batch) (dst_idx + batch) v1

/-- Member erase(pos) for a valid position i < m_size: destruct the
element at i, shift every later element one slot toward i with the
page-batched move loop, decrement m_size, and return (new state, index of
the returned iterator). -/
def erase {α : Type} (v : CV α) (i : Nat) : CV α × Nat :=
  let pe := get_page_and_element_indices P i
  let v1 := setSlot v pe.1 pe.2 none
  let elements_to_move := v.size - 1 - i
  let v2 := moveLoopF P elements_to_move elements_to_move (i + 1) i v1
  ({ v2 with size := v.size - 1 }, i)

/-- Member erase_unsorted(pos) for a valid position i < m_size: when i is
the last index, degenerate to pop_back and return end(); otherwise
destruct slot i, move-construct the last element into it, destruct the
vacated last slot, decrement m_size.  Returns (new state, index of the
returned iterator). -/
def erase_unsorted {α : Type} (v : CV α) (i : Nat) : CV α × Nat :=
  if i = v.size - 1 then
    let v1 := pop_back P v
    (v1, v1.size)
  else
    let ep := i / P
    let ee := i % P
    let lp := (v.size - 1) / P
    let le := (v.size - 1) % P
    let x := readSlot v lp le
    let v1 := setSlot v ep ee none
    let v2 := setSlot v1 ep ee x
    let v3 := setSlot v2 lp le none
    ({ v3 with size := v.size - 1 }, i)

/-- Member at(pos): throws std::out_of_range exactly when pos >= m_size,
otherwise returns the element read through operator[].  The state
component returned is the container after the call (at never mutates). -/
def at_elem {α : Type} (v : CV α) (pos : Nat) : Except Unit (Option α) × CV α :=
  if pos ≥ v.size then (Except.error (), v)
  else (Except.ok (readIdx P v pos), v)

/-- Dereference of an iterator at logical index idx: the page cache set by
update_page_cache points at the element when idx < m_size and is null
(end state) otherwise. -/
def iterDeref {α : Type} (v : CV α) (idx : Nat) : Option α :=
  if idx < v.size then readIdx P v idx else none

/-- Index of end(): m_size.  Iterator equality compares only (container,
index), so an iterator at this index equals end(). -/
def end_index {α : Type} (v : CV α) : Nat := v.size

/-- Copy assignment operator.  isSelf models the this != &other identity
test: when the two references are the same object the body is skipped.
Otherwise: clear, reserve(other.m_size), then append every source element
in order (the general, non-trivially-copyable path; the trivial path is a
page-wise memcpy with the same logical contents).  The none arm of the
match is unreachable for well-formed sources (every slot below m_size is
live). -/
def copyAssign {α : Type} (dst src : CV α) (isSelf : Bool) : CV α :=
  if isSelf then dst
  else
    let d1 := clear P dst
    let d2 := reserve P d1 src.size
    (List.range src.size).foldl
      (fun s k =>
        match readIdx P src k with
        | some a => emplace_back P s a
        | none => s) d2

/-- Move assignment operator.  isSelf models the this != &other identity
test.  Otherwise the destination drops its own pages and steals every
member of the source, which is left default-constructed.  Returns (new
destination, new source). -/
def moveAssign {α : Type} (dst src : CV α) (isSelf : Bool) : CV α × CV α :=
  if isSelf then (dst, src)
  else (⟨src.pages, src.page_count, src.page_capacity, src.size⟩, emptyCV)

end Ops

/-! Debug iterator registry (CHUNKED_VEC_ITERATOR_DEBUG_LEVEL > 0).

An iterator is an iterator_node: a container back-reference, the captured
index, and a link in the container's intrusive singly linked list.  The
model names live iterators by Nat ids; a world holds the container, the
state of every iterator object, and the registry list m_iterator_list
(ids, head first).  Only iterators of one container are modeled, so the
back-references collapse to Bool (true = points at the container). -/

/-- State of one basic_iterator at debug level > 0: its own m_container
pointer (true = bound to the container), its m_index, and its
iterator_node base: the node's container back-reference (cleared on
invalidation) and captured index. -/
structure It where
  mContainer : Bool
  mIndex : Nat
  nodeContainer : Bool
  nodeIndex : Nat
deriving DecidableEq

/-- World at debug level > 0: the container plus every iterator object and
the intrusive registry list. -/
structure DW (α : Type) where
  vec : CV α
  nodes : Nat → It
  reg : List Nat

/-- Update one iterator object in the id map. -/
def updNode (nodes : Nat → It) (id : Nat) (f : It → It) : Nat → It :=
  fun j => if j = id then f (nodes j) else nodes j

/-- Clear an iterator_node on invalidation: container = nullptr, next =
nullptr (the unlink itself is the removal from the list). -/
def clearNode (it : It) : It :=
  { it with nodeContainer := false }

/-- Member _invalidate_iterators_at_or_after(pos): walk the list once;
every node whose captured index is >= pos is unlinked and its container
back-reference cleared; the others stay linked in order.  Returns the new
list and the new iterator states. -/
def invalAt (pos : Nat) : (Nat → It) → List Nat → List Nat × (Nat → It)
  | nodes, [] => ([], nodes)
  | nodes, id :: rest =>
    if (nodes id).nodeIndex ≥ pos then
      invalAt pos (updNode nodes id clearNode) rest
    else
      let r := invalAt pos nodes rest
      (id :: r.1, r.2)

/-- Result of _verify_valid: success or one of the reported fault
conditions, in the order the source checks them. -/
inductive VR where
  | ok
  | notAssociated
  | invalidated
  | outOfRange
deriving DecidableEq

/-- Member basic_iterator::_verify_valid: fault when the iterator has no
container, when the node back-reference no longer equals m_container
(invalidated), or when the captured index exceeds the current size. -/
def verify {α : Type} (w : DW α) (id : Nat) : VR :=
  let it := w.nodes id
  if it.mContainer = false then VR.notAssociated
  else if it.nodeContainer = false then VR.invalidated
  else if it.mIndex > w.vec.size then VR.outOfRange
  else VR.ok

section DebugOps

variable (P : Nat)

/-- Debug-level push_back: emplace_back touches no registry state. -/
def dpush {α : Type} (w : DW α) (a : α) : DW α :=
  ⟨emplace_back P w.vec a, w.nodes, w.reg⟩

/-- Debug-level reserve: touches no registry state. -/
def dreserve {α : Type} (w : DW α) (n : Nat) : DW α :=
  ⟨reserve P w.vec n, w.nodes, w.reg⟩

/-- Debug-level pop_back: after the pop, invalidate at or after the new
m_size. -/
def dpop {α : Type} (w : DW α) : DW α :=
  let v1 := pop_back P w.vec
  let r := invalAt v1.size w.nodes w.reg
  ⟨v1, r.2, r.1⟩

/-- Debug-level erase(pos): after the shift, invalidate at or after the
erased index. -/
def derase {α : Type} (w : DW α) (i : Nat) : DW α :=
  let v1 := (erase P w.vec i).1
  let r := invalAt i w.nodes w.reg
  ⟨v1, r.2, r.1⟩

/-- Debug-level resize(count): after the resize, invalidate at or after
min(m_size, count) (m_size already equals count at that point). -/
def dresize {α : Type} [Inhabited α] (w : DW α) (count : Nat) : DW α :=
  let v1 := resize P w.vec count
  let r := invalAt (min v1.size count) w.nodes w.reg
  ⟨v1, r.2, r.1⟩

/-- Registered-iterator well-formedness: every id on the intrusive list is
an adopted, not-yet-invalidated iterator of this container whose node
captured index mirrors m_index and is within bounds. -/
def RegWF {α : Type} (w : DW α) : Prop :=
  ∀ id ∈ w.reg,
    (w.nodes id).mContainer = true ∧
    (w.nodes id).nodeContainer = true ∧
    (w.nodes id).nodeIndex = (w.nodes id).mIndex ∧
    (w.nodes id).mIndex ≤ w.vec.size

instance {α : Type} (w : DW α) : Decidable (RegWF w) := by
  unfold RegWF; infer_instance

end DebugOps

/-- Reachable container states: default construction followed by any
sequence of the public mutating operations, each used within its
documented domain (asserted preconditions hold, and requested sizes stay
at or below max_size(), the documented maximum). -/
inductive Reach {α : Type} [Inhabited α] (P : Nat) : CV α → Prop where
  | empty : Reach P emptyCV
  | push (v : CV α) (a : α) : Reach P v → v.size < max_size P →
      Reach P (emplace_back P v a)
  | pop (v : CV α) : Reach P v → 0 < v.size → Reach P (pop_back P v)
  | reserveStep (v : CV α) (n : Nat) : Reach P v → n ≤ max_size P →
      Reach P (reserve P v n)
  | shrinkStep (v : CV α) : Reach P v → Reach P (shrink_to_fit P v)
  | clearStep (v : CV α) : Reach P v → Reach P (clear P v)
  | resizeStep (v : CV α) (count : Nat) : Reach P v → count ≤ max_size P →
      Reach P (resize P v count)
  | resizeValStep (v : CV α) (count : Nat) (a : α) : Reach P v → count ≤ max_size P →
      Reach P (resizeVal P v count a)
  | eraseStep (v : CV α) (i : Nat) : Reach P v → i < v.size →
      Reach P ((erase P v i).1)
  | eraseUnsortedStep (v : CV α) (i : Nat) : Reach P v → i < v.size →
      Reach P ((erase_unsorted P v i).1)
  | copyAssignStep (d s : CV α) : Reach P d → Reach P s →
      Reach P (copyAssign P d s false)
  | moveAssignDst (d s : CV α) : Reach P d → Reach P s →
      Reach P ((moveAssign d s false).1)
  | moveAssignSrc (d s : CV α) : Reach P d → Reach P s →
      Reach P ((moveAssign d s false).2)

/-- Container invariant as stated in the spec, plus the strengthening
page_capacity <= max_page_capacity that the growth policy maintains. -/
def Inv {α : Type} (P : Nat) (v : CV α) : Prop :=
  v.size ≤ v.page_count * P ∧
  v.page_count ≤ v.page_capacity ∧
  (∀ i < v.page_count, (v.pages i).isSome) ∧
  v.page_capacity ≤ max_page_capacity

/-- Concrete three-element container holding 10, 11, 12 with PAGE_SIZE 2,
used by the witnesses. -/
def cvW3 : CV Nat :=
  ⟨fun p =>
    if p = 0 then some (fun e => if e = 0 then some 10 else if e = 1 then some 11 else none)
    else if p = 1 then some (fun e => if e = 0 then some 12 else none)
    else none, 2, 2, 3⟩

/-- Concrete three-element container holding 10, 11, 12 with PAGE_SIZE 2
and one extra allocated page, used by the witnesses. -/
def cvW4 : CV Nat :=
  ⟨fun p =>
    if p = 0 then some (fun e => if e = 0 then some 10 else if e = 1 then some 11 else none)
    else if p = 1 then some (fun e => if e = 0 then some 12 else none)
    else if p = 2 then some (fun _ => none)
    else none, 3, 4, 3⟩

/-- Concrete debug world used by the witnesses: the container cvW3 with
two registered iterators, one captured at index 0 and one at index 2. -/
def dwW : DW Nat :=
  ⟨cvW3, fun id => if id = 0 then ⟨true, 0, true, 0⟩ else ⟨true, 2, true, 2⟩, [0, 1]⟩

/-! Basic lemmas about the slot primitives. -/

theorem setSlot_size {α : Type} (v : CV α) (p e : Nat) (x : Option α) :
    (setSlot v p e x).size = v.size := by
  unfold setSlot; cases v.pages p <;> rfl

theorem setSlot_page_count {α : Type} (v : CV α) (p e : Nat) (x : Option α) :
    (setSlot v p e x).page_count = v.page_count := by
  unfold setSlot; cases v.pages p <;> rfl

theorem setSlot_page_capacity {α : Type} (v : CV α) (p e : Nat) (x : Option α) :
    (setSlot v p e x).page_capacity = v.page_capacity := by
  unfold setSlot; cases v.pages p <;> rfl

theorem setSlot_pages_isSome {α : Type} (v : CV α) (p e : Nat) (x : Option α) (q : Nat) :
    ((setSlot v p e x).pages q).isSome = (v.pages q).isSome := by
  unfold setSlot
  cases h : v.pages p with
  | none => rfl
  | some pg =>
    by_cases hq : q = p
    · subst hq; simp [h]
    · simp [hq]

theorem readSlot_setSlot_same {α : Type} (v : CV α) (p e : Nat) (x : Option α)
    (hp : (v.pages p).isSome) : readSlot (setSlot v p e x) p e = x := by
  unfold setSlot readSlot
  cases h : v.pages p with
  | none => rw [h] at hp; simp at hp
  | some pg => simp

theorem readSlot_setSlot_ne {α : Type} (v : CV α) (p e q j : Nat) (x : Option α)
    (h : q ≠ p ∨ j ≠ e) : readSlot (setSlot v p e x) q j = readSlot v q j := by
  unfold setSlot readSlot
  cases hp : v.pages p with
  | none => rfl
  | some pg =>
    rcases h with h | h
    · simp [h]
    · by_cases hq : q = p
      · subst hq; simp [h, hp]
      · simp [hq]

theorem readG_setSlot_at {α : Type} (P : Nat) (v : CV α) (p e : Nat) (x : Option α)
    (he : e < P) (hp : (v.pages p).isSome) :
    readG P (setSlot v p e x) (p * P + e) = x := by
  have h0 : 0 < P := Nat.lt_of_le_of_lt (Nat.zero_le e) he
  unfold readG
  have hdiv : (p * P + e) / P = p := by
    rw [Nat.mul_comm, Nat.mul_add_div h0, Nat.div_eq_of_lt he, Nat.add_zero]
  have hmod : (p * P + e) % P = e := by
    rw [Nat.mul_comm, Nat.mul_add_mod, Nat.mod_eq_of_lt he]
  rw [hdiv, hmod]
  exact readSlot_setSlot_same v p e x hp

theorem readG_setSlot_ne {α : Type} (P : Nat) (v : CV α) (p e g : Nat) (x : Option α)
    (he : e < P) (hg : g ≠ p * P + e) :
    readG P (setSlot v p e x) g = readG P v g := by
  have h0 : 0 < P := Nat.lt_of_le_of_lt (Nat.zero_le e) he
  unfold readG
  apply readSlot_setSlot_ne
  by_cases hq : g / P = p
  · right
    intro hj
    apply hg
    calc g = P * (g / P) + g % P := (Nat.div_add_mod g P).symm
    _ = p * P + e := by rw [hq, hj, Nat.mul_comm]
  · left; exact hq

/-! Lemmas about the index translation. -/

theorem ctzAux_two_pow (k : Nat) : ∀ fuel, k < fuel → ctzAux fuel (2 ^ k) = k := by
  induction k with
  | zero =>
    intro fuel hf
    match fuel, hf with
    | f + 1, _ => simp [ctzAux]
  | succ k ih =>
    intro fuel hf
    match fuel, hf with
    | f + 1, hf =>
      have h2 : 2 ^ (k + 1) % 2 = 0 := by
        simp [Nat.pow_succ, Nat.mul_mod_left]
      have hdiv : 2 ^ (k + 1) / 2 = 2 ^ k := by
        rw [Nat.pow_succ, Nat.mul_div_cancel]; exact Nat.zero_lt_two
      simp only [ctzAux]
      rw [if_pos h2, hdiv, ih f (Nat.lt_of_succ_lt_succ hf)]

theorem count_trailing_zeros_two_pow (k : Nat) : count_trailing_zeros (2 ^ k) = k := by
  unfold count_trailing_zeros
  rw [if_neg ((Nat.pos_pow_of_pos k Nat.zero_lt_two).ne' : 2 ^ k ≠ 0)]
  exact ctzAux_two_pow k (2 ^ k) (Nat.lt_two_pow k)

theorem pow2_of_and_pred : ∀ P : Nat, 0 < P → P &&& (P - 1) = 0 → ∃ k, P = 2 ^ k := by
  intro P
  induction P using Nat.strong_induction_on with
  | _ P ih =>
    intro h0 hand
    rcases Nat.even_or_odd P with he | ho
    · obtain ⟨m, hm⟩ := he
      have hm2 : P = 2 * m := by omega
      have hmpos : 0 < m := by omega
      have hdiv : (P &&& (P - 1)) / 2 = m &&& (m - 1) := by
        rw [Nat.and_div_two]
        congr 1
        · omega
        · omega
      have hand' : m &&& (m - 1) = 0 := by
        rw [← hdiv, hand]
      obtain ⟨k, hk⟩ := ih m (by omega) hmpos hand'
      exact ⟨k + 1, by rw [hm2, hk, Nat.pow_succ, Nat.mul_comm]⟩
    · obtain ⟨a, ha⟩ := ho
      by_cases ha0 : a = 0
      · exact ⟨0, by omega⟩
      · exfalso
        have hdiv : (P &&& (P - 1)) / 2 = a &&& a := by
          rw [Nat.and_div_two]
          congr 1
          · omega
          · omega
        rw [hand, Nat.and_self] at hdiv
        omega

theorem gpei_eq (P pos : Nat) (h0 : 0 < P) :
    get_page_and_element_indices P pos = (pos / P, pos % P) := by
  unfold get_page_and_element_indices
  by_cases h : P &&& (P - 1) = 0
  · rw [if_pos h]
    obtain ⟨k, rfl⟩ := pow2_of_and_pred P h0 h
    rw [count_trailing_zeros_two_pow, Nat.shiftRight_eq_div_pow,
      Nat.and_pow_two_sub_one_eq_mod]
  · rw [if_neg h]

theorem readIdx_eq_readG {α : Type} (P : Nat) (v : CV α) (pos : Nat) (h0 : 0 < P) :
    readIdx P v pos = readG P v pos := by
  unfold readIdx readG
  rw [gpei_eq P pos h0]

/-- C7: for every logical position, when PAGE_SIZE is a compile-time power
of two the shift-and-mask translation (pos >>> log2(PAGE_SIZE),
pos &&& (PAGE_SIZE - 1)) taken by get_page_and_element_indices returns
exactly the same (page index, offset) pair as the general division/modulo
path (pos / PAGE_SIZE, pos % PAGE_SIZE); the translation is a pure
function of pos. -/
theorem c7_index_translation_pow2 (k pos : Nat) :
    get_page_and_element_indices (2 ^ k) pos = (pos / 2 ^ k, pos % 2 ^ k) ∧
    (pos >>> count_trailing_zeros (2 ^ k), pos &&& (2 ^ k - 1)) =
      (pos / 2 ^ k, pos % 2 ^ k) := by
  constructor
  · exact gpei_eq (2 ^ k) pos (Nat.pos_pow_of_pos k Nat.zero_lt_two)
  · rw [count_trailing_zeros_two_pow, Nat.shiftRight_eq_div_pow,
      Nat.and_pow_two_sub_one_eq_mod]

/-- C5: at(pos) leaves the container state untouched, reports the
catchable out-of-range condition exactly when pos >= size(), and otherwise
returns the element at logical position pos. -/
theorem c5_at_checked {α : Type} (P : Nat) (v : CV α) (pos : Nat) (h0 : 0 < P) :
    (at_elem P v pos).2 = v ∧
    ((at_elem P v pos).1 = Except.error () ↔ v.size ≤ pos) ∧
    (pos < v.size → (at_elem P v pos).1 = Except.ok (readG P v pos)) := by
  refine ⟨?_, ⟨?_, ?_⟩, ?_⟩
  · unfold at_elem
    by_cases h : pos ≥ v.size
    · rw [if_pos h]
    · rw [if_neg h]
  · intro h
    unfold at_elem at h
    by_cases hge : pos ≥ v.size
    · exact hge
    · rw [if_neg hge] at h
      exact absurd h (by simp)
  · intro h
    unfold at_elem
    rw [if_pos h]
  · intro h
    unfold at_elem
    rw [if_neg (Nat.not_le.mpr h), readIdx_eq_readG P v pos h0]

/-- Witness for c5_at_checked at PAGE_SIZE 4 on a concrete container. -/
theorem c5_at_checked_witness :
    (0 : Nat) < 4 ∧
    ((at_elem 4 (⟨fun _ => none, 0, 0, 0⟩ : CV Nat) 0).2 = ⟨fun _ => none, 0, 0, 0⟩ ∧
      ((at_elem 4 (⟨fun _ => none, 0, 0, 0⟩ : CV Nat) 0).1 = Except.error () ↔
        (⟨fun _ => none, 0, 0, 0⟩ : CV Nat).size ≤ 0) ∧
      (0 < (⟨fun _ => none, 0, 0, 0⟩ : CV Nat).size →
        (at_elem 4 (⟨fun _ => none, 0, 0, 0⟩ : CV Nat) 0).1 =
          Except.ok (readG 4 (⟨fun _ => none, 0, 0, 0⟩ : CV Nat) 0))) :=
  ⟨by decide, c5_at_checked 4 ⟨fun _ => none, 0, 0, 0⟩ 0 (by decide)⟩

/-- C10: self-assignment is a no-op: copy-assigning a container to itself
and move-assigning a container to itself both leave it unchanged, because
both operators test this != &other (the isSelf flag) before clearing the
destination. -/
theorem c10_self_assignment {α : Type} (P : Nat) (v : CV α) :
    copyAssign P v v true = v ∧ moveAssign v v true = (v, v) :=
  ⟨rfl, rfl⟩

/-! Lemmas about the page-table growth arithmetic. -/

theorem max_page_capacity_lt_W : max_page_capacity < W := by
  decide

theorem wrap_sub_exact (a b : Nat) (hb : b ≤ a) (ha : a < W) :
    (a + W - b % W) % W = a - b := by
  have hbW : b < W := Nat.lt_of_le_of_lt hb ha
  rw [Nat.mod_eq_of_lt hbW]
  have h1 : a + W - b = W + (a - b) := by omega
  rw [h1, Nat.add_mod_left, Nat.mod_eq_of_lt (by omega)]

theorem calculate_page_growth_eq {α : Type} (v : CV α) (needed : Nat)
    (hcap : v.page_capacity ≤ max_page_capacity) :
    calculate_page_growth v needed =
      if max_page_capacity < v.page_capacity + v.page_capacity / 2 then max_page_capacity
      else if v.page_capacity + v.page_capacity / 2 < needed then needed
      else v.page_capacity + v.page_capacity / 2 := by
  unfold calculate_page_growth
  have hmxW : max_page_capacity < W := max_page_capacity_lt_W
  have hwsub : (max_page_capacity + W - (v.page_capacity / 2) % W) % W =
      max_page_capacity - v.page_capacity / 2 :=
    wrap_sub_exact _ _ (Nat.le_trans (Nat.div_le_self _ 2) hcap) hmxW
  simp only [hwsub]
  by_cases hg : max_page_capacity < v.page_capacity + v.page_capacity / 2
  · rw [if_pos (by omega : max_page_capacity - v.page_capacity / 2 < v.page_capacity),
      if_pos hg]
  · rw [if_neg (by omega : ¬max_page_capacity - v.page_capacity / 2 < v.page_capacity),
      if_neg hg, Nat.mod_eq_of_lt (by omega : v.page_capacity + v.page_capacity / 2 < W)]

/-- Full characterization of ensure_page_capacity, shared by the C3
theorem and the invariant development. -/
theorem ensure_page_capacity_spec {α : Type} (v : CV α) (needed : Nat)
    (hcap : v.page_capacity ≤ max_page_capacity) (hneed : needed < W) :
    (needed ≤ v.page_capacity → ensure_page_capacity v needed = v) ∧
    (v.page_capacity < needed → v.page_capacity = 0 →
      (ensure_page_capacity v needed).page_capacity = needed) ∧
    (v.page_capacity < needed → 0 < v.page_capacity →
      (ensure_page_capacity v needed).page_capacity =
        (if max_page_capacity < v.page_capacity + v.page_capacity / 2 then max_page_capacity
         else if v.page_capacity + v.page_capacity / 2 < needed then needed
         else v.page_capacity + v.page_capacity / 2)) ∧
    (ensure_page_capacity v needed).page_capacity < W := by
  refine ⟨?_, ?_, ?_, ?_⟩
  · intro h
    unfold ensure_page_capacity
    rw [if_pos h]
  · intro h h0
    unfold ensure_page_capacity
    rw [if_neg (Nat.not_le.mpr h), if_pos h0, if_pos (by omega)]
  · intro h h0
    unfold ensure_page_capacity
    rw [if_neg (Nat.not_le.mpr h), if_neg (by omega)]
    exact calculate_page_growth_eq v needed hcap
  · unfold ensure_page_capacity
    by_cases h : needed ≤ v.page_capacity
    · rw [if_pos h]
      exact Nat.lt_of_le_of_lt hcap max_page_capacity_lt_W
    · rw [if_neg h]
      show (if v.page_capacity = 0 then (if needed > 0 then needed else 1)
        else calculate_page_growth v needed) < W
      by_cases h0 : v.page_capacity = 0
      · rw [if_pos h0]
        by_cases hn : needed > 0
        · rw [if_pos hn]; exact hneed
        · rw [if_neg hn]
          exact Nat.lt_of_le_of_lt (by omega) max_page_capacity_lt_W
      · rw [if_neg h0, calculate_page_growth_eq v needed hcap]
        have hmxW : max_page_capacity < W := max_page_capacity_lt_W
        by_cases hg : max_page_capacity < v.page_capacity + v.page_capacity / 2
        · rw [if_pos hg]; exact hmxW
        · rw [if_neg hg]
          by_cases hn : v.page_capacity + v.page_capacity / 2 < needed
          · rw [if_pos hn]; exact hneed
          · rw [if_neg hn]; omega

/-- C3: ensure_page_capacity is a no-op when pages_needed fits.  Otherwise
from a zero page_capacity the new capacity is exactly pages_needed; from a
nonzero one it is old + old/2 geometric growth, raised to pages_needed
when that sum is insufficient and replaced by max_page_capacity when
old > max - old/2 (the guard that avoids a wrapping sum); in every case
the resulting capacity is below 2^64, so it never results from size_type
overflow. -/
theorem c3_ensure_page_capacity {α : Type} (v : CV α) (needed : Nat)
    (hcap : v.page_capacity ≤ max_page_capacity) (hneed : needed < W) :
    (needed ≤ v.page_capacity → ensure_page_capacity v needed = v) ∧
    (v.page_capacity < needed → v.page_capacity = 0 →
      (ensure_page_capacity v needed).page_capacity = needed) ∧
    (v.page_capacity < needed → 0 < v.page_capacity →
      (ensure_page_capacity v needed).page_capacity =
        (if max_page_capacity < v.page_capacity + v.page_capacity / 2 then max_page_capacity
         else if v.page_capacity + v.page_capacity / 2 < needed then needed
         else v.page_capacity + v.page_capacity / 2)) ∧
    (ensure_page_capacity v needed).page_capacity < W :=
  ensure_page_capacity_spec v needed hcap hneed

/-- Witness for c3_ensure_page_capacity: a container with page_capacity 5
asked for 10 pages grows to exactly 10 (geometric 7 is insufficient). -/
theorem c3_ensure_page_capacity_witness :
    ((⟨fun _ => none, 0, 5, 0⟩ : CV Nat).page_capacity ≤ max_page_capacity ∧ 10 < W) ∧
    ((10 ≤ (⟨fun _ => none, 0, 5, 0⟩ : CV Nat).page_capacity →
        ensure_page_capacity (⟨fun _ => none, 0, 5, 0⟩ : CV Nat) 10 = ⟨fun _ => none, 0, 5, 0⟩) ∧
      ((⟨fun _ => none, 0, 5, 0⟩ : CV Nat).page_capacity < 10 →
        (⟨fun _ => none, 0, 5, 0⟩ : CV Nat).page_capacity = 0 →
        (ensure_page_capacity (⟨fun _ => none, 0, 5, 0⟩ : CV Nat) 10).page_capacity = 10) ∧
      ((⟨fun _ => none, 0, 5, 0⟩ : CV Nat).page_capacity < 10 →
        0 < (⟨fun _ => none, 0, 5, 0⟩ : CV Nat).page_capacity →
        (ensure_page_capacity (⟨fun _ => none, 0, 5, 0⟩ : CV Nat) 10).page_capacity =
          (if max_page_capacity <
              (⟨fun _ => none, 0, 5, 0⟩ : CV Nat).page_capacity +
                (⟨fun _ => none, 0, 5, 0⟩ : CV Nat).page_capacity / 2 then max_page_capacity
           else if (⟨fun _ => none, 0, 5, 0⟩ : CV Nat).page_capacity +
              (⟨fun _ => none, 0, 5, 0⟩ : CV Nat).page_capacity / 2 < 10 then 10
           else (⟨fun _ => none, 0, 5, 0⟩ : CV Nat).page_capacity +
              (⟨fun _ => none, 0, 5, 0⟩ : CV Nat).page_capacity / 2)) ∧
      (ensure_page_capacity (⟨fun _ => none, 0, 5, 0⟩ : CV Nat) 10).page_capacity < W) :=
  ⟨⟨by decide, by decide⟩,
    c3_ensure_page_capacity (⟨fun _ => none, 0, 5, 0⟩ : CV Nat) 10 (by decide) (by decide)⟩

/-! Preservation lemmas for the growth helpers. -/

theorem ensure_size {α : Type} (v : CV α) (n : Nat) :
    (ensure_page_capacity v n).size = v.size := by
  unfold ensure_page_capacity
  by_cases h : n ≤ v.page_capacity
  · rw [if_pos h]
  · rw [if_neg h]

theorem ensure_page_count {α : Type} (v : CV α) (n : Nat) :
    (ensure_page_capacity v n).page_count = v.page_count := by
  unfold ensure_page_capacity
  by_cases h : n ≤ v.page_capacity
  · rw [if_pos h]
  · rw [if_neg h]

theorem ensure_pages_lt {α : Type} (v : CV α) (n i : Nat) (h : i < v.page_count) :
    (ensure_page_capacity v n).pages i = v.pages i := by
  unfold ensure_page_capacity
  by_cases hn : n ≤ v.page_capacity
  · rw [if_pos hn]
  · rw [if_neg hn]
    exact if_pos h

theorem allocate_page_size {α : Type} (v : CV α) (idx : Nat) :
    (allocate_page v idx).size = v.size := rfl

theorem allocate_page_pages_ne {α : Type} (v : CV α) (idx q : Nat) (h : q ≠ idx) :
    (allocate_page v idx).pages q = v.pages q := by
  unfold allocate_page
  exact if_neg h

theorem allocate_page_pages_eq {α : Type} (v : CV α) (idx : Nat) :
    (allocate_page v idx).pages idx = some (fun _ => none) := by
  unfold allocate_page
  exact if_pos rfl

theorem lt_div_succ_mul (a b : Nat) (hb : 0 < b) : a < (a / b + 1) * b := by
  have h1 := Nat.div_add_mod a b
  have h2 : a % b < b := Nat.mod_lt a hb
  nlinarith [h1, h2]

theorem ensure_one_more_size {α : Type} (P : Nat) (v : CV α) :
    (ensure_capacity_for_one_more P v).size = v.size := by
  unfold ensure_capacity_for_one_more
  by_cases h : v.size / P ≥ v.page_count
  · rw [if_pos h, allocate_page_size, ensure_size]
  · rw [if_neg h]

/-- Equation form of emplace_back with the index translation resolved to
division and modulo. -/
theorem emplace_back_eq {α : Type} (P : Nat) (v : CV α) (a : α) (h0 : 0 < P) :
    emplace_back P v a =
      { setSlot (ensure_capacity_for_one_more P v) (v.size / P) (v.size % P) (some a)
        with size := v.size + 1 } := by
  unfold emplace_back
  show { setSlot (ensure_capacity_for_one_more P v)
      (get_page_and_element_indices P (ensure_capacity_for_one_more P v).size).1
      (get_page_and_element_indices P (ensure_capacity_for_one_more P v).size).2 (some a)
    with size := (ensure_capacity_for_one_more P v).size + 1 } = _
  rw [ensure_one_more_size, gpei_eq _ _ h0]

/-- Equation form of pop_back with the index translation resolved to
division and modulo. -/
theorem pop_back_eq {α : Type} (P : Nat) (v : CV α) (h0 : 0 < P) :
    pop_back P v =
      { setSlot v ((v.size - 1) / P) ((v.size - 1) % P) none with size := v.size - 1 } := by
  unfold pop_back
  show { setSlot v (get_page_and_element_indices P (v.size - 1)).1
      (get_page_and_element_indices P (v.size - 1)).2 none with size := v.size - 1 } = _
  rw [gpei_eq _ _ h0]

theorem readG_set_size {α : Type} (P : Nat) (v : CV α) (s g : Nat) :
    readG P { v with size := s } g = readG P v g := rfl

/-- Helper ensure_capacity_for_one_more leaves the size and every element
in place, and guarantees that the page of slot m_size exists. -/
theorem ensure_one_more_spec {α : Type} (P : Nat) (v : CV α) (h0 : 0 < P)
    (hsz : v.size ≤ v.page_count * P) (hpg : ∀ i < v.page_count, (v.pages i).isSome) :
    ((ensure_capacity_for_one_more P v).pages (v.size / P)).isSome ∧
    (∀ k < v.size, readG P (ensure_capacity_for_one_more P v) k = readG P v k) := by
  unfold ensure_capacity_for_one_more
  by_cases h : v.size / P ≥ v.page_count
  · rw [if_pos h]
    refine ⟨?_, ?_⟩
    · rw [allocate_page_pages_eq]; rfl
    · intro k hk
      have hkp : k / P < v.page_count := by
        apply Nat.div_lt_of_lt_mul
        calc k < v.size := hk
        _ ≤ v.page_count * P := hsz
        _ = P * v.page_count := Nat.mul_comm _ _
      unfold readG readSlot
      rw [allocate_page_pages_ne _ _ _ (by omega), ensure_pages_lt _ _ _ hkp]
  · rw [if_neg h]
    refine ⟨?_, fun k _ => rfl⟩
    exact hpg _ (Nat.lt_of_not_le h)

/-- Member emplace_back appends: the new size is the old size plus one,
slot m_size holds the new element, and every existing element is
untouched. -/
theorem emplace_back_spec {α : Type} (P : Nat) (v : CV α) (a : α) (h0 : 0 < P)
    (hsz : v.size ≤ v.page_count * P) (hpg : ∀ i < v.page_count, (v.pages i).isSome) :
    (emplace_back P v a).size = v.size + 1 ∧
    readG P (emplace_back P v a) v.size = some a ∧
    (∀ k < v.size, readG P (emplace_back P v a) k = readG P v k) := by
  obtain ⟨h2, h3⟩ := ensure_one_more_spec P v h0 hsz hpg
  rw [emplace_back_eq P v a h0]
  have hglob : v.size / P * P + v.size % P = v.size := by
    rw [Nat.mul_comm]
    exact Nat.div_add_mod v.size P
  refine ⟨rfl, ?_, ?_⟩
  · rw [readG_set_size]
    have := readG_setSlot_at P (ensure_capacity_for_one_more P v) (v.size / P) (v.size % P)
      (some a) (Nat.mod_lt _ h0) h2
    rw [hglob] at this
    exact this
  · intro k hk
    rw [readG_set_size,
      readG_setSlot_ne P _ _ _ _ _ (Nat.mod_lt _ h0) (by rw [hglob]; omega)]
    exact h3 k hk

theorem ensure_one_more_page_count {α : Type} (P : Nat) (v : CV α) :
    (ensure_capacity_for_one_more P v).page_count =
      if v.size / P ≥ v.page_count then v.size / P + 1 else v.page_count := by
  unfold ensure_capacity_for_one_more
  by_cases h : v.size / P ≥ v.page_count
  · rw [if_pos h, if_pos h]
    unfold allocate_page
    rw [ensure_page_count]
    show (if v.size / P ≥ v.page_count then v.size / P + 1 else v.page_count) = _
    rw [if_pos h]
  · rw [if_neg h, if_neg h]

theorem ensure_one_more_pages_isSome {α : Type} (P : Nat) (v : CV α) (h0 : 0 < P)
    (hsz : v.size ≤ v.page_count * P)
    (hpg : ∀ i < v.page_count, (v.pages i).isSome) :
    ∀ i < (ensure_capacity_for_one_more P v).page_count,
      ((ensure_capacity_for_one_more P v).pages i).isSome := by
  have hle : v.size / P ≤ v.page_count := by
    have := Nat.div_le_div_right (c := P) hsz
    rwa [Nat.mul_div_cancel _ h0] at this
  intro i hi
  rw [ensure_one_more_page_count] at hi
  unfold ensure_capacity_for_one_more
  by_cases h : v.size / P ≥ v.page_count
  · rw [if_pos h]
    rw [if_pos h] at hi
    by_cases hiq : i = v.size / P
    · subst hiq
      rw [allocate_page_pages_eq]; rfl
    · rw [allocate_page_pages_ne _ _ _ hiq]
      have hic : i < v.page_count := by omega
      rw [ensure_pages_lt _ _ _ hic]
      exact hpg _ hic
  · rw [if_neg h]
    rw [if_neg h] at hi
    exact hpg _ hi

/-- Member emplace_back keeps the structural part of the invariant:
size within the allocated pages and all pages below page_count present. -/
theorem emplace_back_wf {α : Type} (P : Nat) (v : CV α) (a : α) (h0 : 0 < P)
    (hsz : v.size ≤ v.page_count * P) (hpg : ∀ i < v.page_count, (v.pages i).isSome) :
    (emplace_back P v a).size ≤ (emplace_back P v a).page_count * P ∧
    (∀ i < (emplace_back P v a).page_count, ((emplace_back P v a).pages i).isSome) := by
  rw [emplace_back_eq P v a h0]
  constructor
  · show v.size + 1 ≤ (setSlot _ _ _ _).page_count * P
    rw [setSlot_page_count, ensure_one_more_page_count]
    by_cases h : v.size / P ≥ v.page_count
    · rw [if_pos h]
      have := lt_div_succ_mul v.size P h0
      omega
    · rw [if_neg h]
      have h1 : v.size / P < v.page_count := Nat.lt_of_not_le h
      have h2 : v.size < v.page_count * P := by
        calc v.size < (v.size / P + 1) * P := lt_div_succ_mul v.size P h0
        _ ≤ v.page_count * P := Nat.mul_le_mul_right _ (by omega)
      omega
  · intro i hi
    show ((setSlot _ _ _ _).pages i).isSome
    rw [setSlot_pages_isSome]
    have hi' : i < (ensure_capacity_for_one_more P v).page_count := by
      have hpc : ({ setSlot (ensure_capacity_for_one_more P v) (v.size / P) (v.size % P)
          (some a) with size := v.size + 1 } : CV α).page_count =
          (ensure_capacity_for_one_more P v).page_count :=
        setSlot_page_count _ _ _ _
      rw [hpc] at hi
      exact hi
    exact ensure_one_more_pages_isSome P v h0 hsz hpg i hi'

/-- Member pop_back: decrements the size, destructs the top slot and
leaves the remaining elements in place. -/
theorem pop_back_spec {α : Type} (P : Nat) (v : CV α) (h0 : 0 < P)
    (hsz : v.size ≤ v.page_count * P) (hpg : ∀ i < v.page_count, (v.pages i).isSome)
    (hpos : 0 < v.size) :
    (pop_back P v).size = v.size - 1 ∧
    (∀ k < v.size - 1, readG P (pop_back P v) k = readG P v k) ∧
    readG P (pop_back P v) (v.size - 1) = none := by
  rw [pop_back_eq P v h0]
  have hglob : (v.size - 1) / P * P + (v.size - 1) % P = v.size - 1 := by
    rw [Nat.mul_comm]
    exact Nat.div_add_mod _ P
  have hpage : ((v.pages ((v.size - 1) / P))).isSome := by
    apply hpg
    apply Nat.div_lt_of_lt_mul
    calc v.size - 1 < v.size := by omega
    _ ≤ v.page_count * P := hsz
    _ = P * v.page_count := Nat.mul_comm _ _
  refine ⟨rfl, ?_, ?_⟩
  · intro k hk
    rw [readG_set_size,
      readG_setSlot_ne P _ _ _ _ _ (Nat.mod_lt _ h0) (by rw [hglob]; omega)]
  · rw [readG_set_size]
    have := readG_setSlot_at P v ((v.size - 1) / P) ((v.size - 1) % P) none
      (Nat.mod_lt _ h0) hpage
    rw [hglob] at this
    exact this

/-- C6: push_back of any value followed immediately by pop_back restores
the prior size and leaves every previously existing element unchanged. -/
theorem c6_push_then_pop {α : Type} (P : Nat) (v : CV α) (a : α) (h0 : 0 < P)
    (hsz : v.size ≤ v.page_count * P) (hpg : ∀ i < v.page_count, (v.pages i).isSome) :
    (pop_back P (emplace_back P v a)).size = v.size ∧
    (∀ k < v.size, readG P (pop_back P (emplace_back P v a)) k = readG P v k) := by
  obtain ⟨he1, _, he3⟩ := emplace_back_spec P v a h0 hsz hpg
  obtain ⟨hw1, hw2⟩ := emplace_back_wf P v a h0 hsz hpg
  obtain ⟨hp1, hp2, _⟩ := pop_back_spec P (emplace_back P v a) h0 hw1 hw2 (by omega)
  constructor
  · rw [hp1, he1]
    omega
  · intro k hk
    rw [hp2 k (by omega), he3 k hk]

/-- Witness for c6_push_then_pop: pushing then popping on a concrete
one-element container with PAGE_SIZE 4 restores it. -/
theorem c6_push_then_pop_witness :
    ((0 : Nat) < 4 ∧
      (⟨fun p => if p = 0 then some (fun e => if e = 0 then some 7 else none) else none,
        1, 1, 1⟩ : CV Nat).size ≤
        (⟨fun p => if p = 0 then some (fun e => if e = 0 then some 7 else none) else none,
          1, 1, 1⟩ : CV Nat).page_count * 4) ∧
    ((pop_back 4 (emplace_back 4
        (⟨fun p => if p = 0 then some (fun e => if e = 0 then some 7 else none) else none,
          1, 1, 1⟩ : CV Nat) 9)).size =
      (⟨fun p => if p = 0 then some (fun e => if e = 0 then some 7 else none) else none,
        1, 1, 1⟩ : CV Nat).size ∧
      (∀ k < (⟨fun p => if p = 0 then some (fun e => if e = 0 then some 7 else none) else none,
          1, 1, 1⟩ : CV Nat).size,
        readG 4 (pop_back 4 (emplace_back 4
          (⟨fun p => if p = 0 then some (fun e => if e = 0 then some 7 else none) else none,
            1, 1, 1⟩ : CV Nat) 9)) k =
        readG 4 (⟨fun p => if p = 0 then some (fun e => if e = 0 then some 7 else none) else none,
          1, 1, 1⟩ : CV Nat) k)) :=
  ⟨⟨by decide, by decide⟩,
    c6_push_then_pop 4 _ 9 (by decide) (by decide) (by decide)⟩

/-! Lemmas for erase_unsorted. -/

/-- Equation form of erase_unsorted in the general (not-last) case. -/
theorem erase_unsorted_eq_general {α : Type} (P : Nat) (v : CV α) (i : Nat)
    (h : i ≠ v.size - 1) :
    erase_unsorted P v i =
      ({ setSlot (setSlot (setSlot v (i / P) (i % P) none) (i / P) (i % P)
          (readSlot v ((v.size - 1) / P) ((v.size - 1) % P))) ((v.size - 1) / P)
          ((v.size - 1) % P) none with size := v.size - 1 }, i) := by
  unfold erase_unsorted
  rw [if_neg h]

/-- C2: erase_unsorted at a valid position i: when i is the last index it
degenerates to pop_back and returns end(); otherwise it destructs the
element at i, move-constructs the current last element into slot i,
destructs the vacated last slot, decrements the size, leaves every other
element unchanged, and returns an iterator at position i. -/
theorem c2_erase_unsorted {α : Type} (P : Nat) (v : CV α) (i : Nat) (h0 : 0 < P)
    (hsz : v.size ≤ v.page_count * P) (hpg : ∀ j < v.page_count, (v.pages j).isSome)
    (hi : i < v.size) :
    (i = v.size - 1 →
      (erase_unsorted P v i).1 = pop_back P v ∧
      (erase_unsorted P v i).2 = end_index (erase_unsorted P v i).1) ∧
    (i ≠ v.size - 1 →
      (erase_unsorted P v i).1.size = v.size - 1 ∧
      readG P (erase_unsorted P v i).1 i = readG P v (v.size - 1) ∧
      (∀ k < v.size - 1, k ≠ i → readG P (erase_unsorted P v i).1 k = readG P v k) ∧
      readG P (erase_unsorted P v i).1 (v.size - 1) = none ∧
      (erase_unsorted P v i).2 = i) := by
  constructor
  · intro h
    unfold erase_unsorted
    rw [if_pos h]
    exact ⟨rfl, rfl⟩
  · intro h
    have hglobI : i / P * P + i % P = i := by
      rw [Nat.mul_comm]; exact Nat.div_add_mod i P
    have hglobL : (v.size - 1) / P * P + (v.size - 1) % P = v.size - 1 := by
      rw [Nat.mul_comm]; exact Nat.div_add_mod _ P
    have hpI : ((v.pages (i / P))).isSome := by
      apply hpg
      apply Nat.div_lt_of_lt_mul
      calc i < v.size := hi
      _ ≤ v.page_count * P := hsz
      _ = P * v.page_count := Nat.mul_comm _ _
    have hpL : ((v.pages ((v.size - 1) / P))).isSome := by
      apply hpg
      apply Nat.div_lt_of_lt_mul
      calc v.size - 1 < v.size := by omega
      _ ≤ v.page_count * P := hsz
      _ = P * v.page_count := Nat.mul_comm _ _
    rw [erase_unsorted_eq_general P v i h]
    refine ⟨rfl, ?_, ?_, ?_, rfl⟩
    · rw [readG_set_size,
        readG_setSlot_ne P _ _ _ _ _ (Nat.mod_lt _ h0) (by rw [hglobL]; omega)]
      have := readG_setSlot_at P (setSlot v (i / P) (i % P) none) (i / P) (i % P)
        (readSlot v ((v.size - 1) / P) ((v.size - 1) % P)) (Nat.mod_lt _ h0)
        (by rw [setSlot_pages_isSome]; exact hpI)
      rw [hglobI] at this
      rw [this]
      rfl
    · intro k hk hki
      rw [readG_set_size,
        readG_setSlot_ne P _ _ _ _ _ (Nat.mod_lt _ h0) (by rw [hglobL]; omega),
        readG_setSlot_ne P _ _ _ _ _ (Nat.mod_lt _ h0) (by rw [hglobI]; omega),
        readG_setSlot_ne P _ _ _ _ _ (Nat.mod_lt _ h0) (by rw [hglobI]; omega)]
    · rw [readG_set_size]
      have := readG_setSlot_at P (setSlot (setSlot v (i / P) (i % P) none) (i / P) (i % P)
        (readSlot v ((v.size - 1) / P) ((v.size - 1) % P))) ((v.size - 1) / P)
        ((v.size - 1) % P) none (Nat.mod_lt _ h0)
        (by rw [setSlot_pages_isSome, setSlot_pages_isSome]; exact hpL)
      rw [hglobL] at this
      exact this

/-- Witness for c2_erase_unsorted: erase_unsorted at index 1 of the
concrete container [10, 11, 12] with PAGE_SIZE 2. -/
theorem c2_erase_unsorted_witness :
    ((0 : Nat) < 2 ∧ (1 : Nat) < 3) ∧
    ((1 = (cvW3 : CV Nat).size - 1 →
        (erase_unsorted 2 cvW3 1).1 = pop_back 2 cvW3 ∧
        (erase_unsorted 2 cvW3 1).2 = end_index (erase_unsorted 2 cvW3 1).1) ∧
      (1 ≠ (cvW3 : CV Nat).size - 1 →
        (erase_unsorted 2 cvW3 1).1.size = cvW3.size - 1 ∧
        readG 2 (erase_unsorted 2 cvW3 1).1 1 = readG 2 cvW3 (cvW3.size - 1) ∧
        (∀ k < cvW3.size - 1, k ≠ 1 → readG 2 (erase_unsorted 2 cvW3 1).1 k = readG 2 cvW3 k) ∧
        readG 2 (erase_unsorted 2 cvW3 1).1 (cvW3.size - 1) = none ∧
        (erase_unsorted 2 cvW3 1).2 = 1)) :=
  ⟨⟨by decide, by decide⟩,
    c2_erase_unsorted 2 cvW3 1 (by decide) (by decide) (by decide) (by decide)⟩

/-! Lemmas for shrink_to_fit. -/

theorem deallocFold_pages {α : Type} :
    ∀ (l : List Nat) (v : CV α) (q : Nat),
      ((l.foldl (fun s i => deallocate_page s i) v).pages q) =
        (if q ∈ l then none else v.pages q) := by
  intro l
  induction l with
  | nil =>
    intro v q
    simp
  | cons a t ih =>
    intro v q
    show ((t.foldl _ (deallocate_page v a)).pages q) = _
    rw [ih]
    by_cases hq : q ∈ t
    · rw [if_pos hq, if_pos (List.mem_cons_of_mem a hq)]
    · rw [if_neg hq]
      by_cases hqa : q = a
      · subst hqa
        rw [if_pos (List.mem_cons_self q t)]
        exact if_pos rfl
      · rw [if_neg (by simp [hqa, hq])]
        exact if_neg hqa

theorem deallocFold_size {α : Type} :
    ∀ (l : List Nat) (v : CV α),
      (l.foldl (fun s i => deallocate_page s i) v).size = v.size := by
  intro l
  induction l with
  | nil => intro v; rfl
  | cons a t ih => intro v; exact ih (deallocate_page v a)

theorem deallocFold_page_capacity {α : Type} :
    ∀ (l : List Nat) (v : CV α),
      (l.foldl (fun s i => deallocate_page s i) v).page_capacity = v.page_capacity := by
  intro l
  induction l with
  | nil => intro v; rfl
  | cons a t ih => intro v; exact ih (deallocate_page v a)

/-- Equation form of shrink_to_fit. -/
theorem shrink_to_fit_eq {α : Type} (P : Nat) (v : CV α) :
    shrink_to_fit P v =
      { (List.range' ((v.size + P - 1) / P) (v.page_count - (v.size + P - 1) / P)).foldl
          (fun s i => deallocate_page s i) v with page_count := (v.size + P - 1) / P } := rfl

/-- C8: shrink_to_fit sets page_count to ceil(size / PAGE_SIZE), frees
every allocated page beyond it, and leaves the size, every stored element
and the page-table slot count (page_capacity) unchanged. -/
theorem c8_shrink_to_fit {α : Type} (P : Nat) (v : CV α) (h0 : 0 < P)
    (hsz : v.size ≤ v.page_count * P) :
    (shrink_to_fit P v).size = v.size ∧
    (shrink_to_fit P v).page_capacity = v.page_capacity ∧
    (shrink_to_fit P v).page_count = (v.size + P - 1) / P ∧
    (∀ k < v.size, readG P (shrink_to_fit P v) k = readG P v k) ∧
    (∀ p, (v.size + P - 1) / P ≤ p → p < v.page_count → (shrink_to_fit P v).pages p = none) := by
  rw [shrink_to_fit_eq]
  refine ⟨?_, ?_, rfl, ?_, ?_⟩
  · exact deallocFold_size
      (List.range' ((v.size + P - 1) / P) (v.page_count - (v.size + P - 1) / P)) v
  · exact deallocFold_page_capacity
      (List.range' ((v.size + P - 1) / P) (v.page_count - (v.size + P - 1) / P)) v
  · intro k hk
    have hsz1 : 1 ≤ v.size := by omega
    have hceil : (v.size + P - 1) / P = (v.size - 1) / P + 1 := by
      have harg : v.size + P - 1 = (v.size - 1) + P := by omega
      rw [harg, Nat.add_div_right _ h0]
    have hkdiv : k / P < (v.size + P - 1) / P := by
      rw [hceil]
      have : k / P ≤ (v.size - 1) / P := Nat.div_le_div_right (by omega)
      omega
    show readG P ((List.range' ((v.size + P - 1) / P)
      (v.page_count - (v.size + P - 1) / P)).foldl (fun s i => deallocate_page s i) v) k =
      readG P v k
    unfold readG readSlot
    rw [deallocFold_pages]
    rw [if_neg (by
      intro hmem
      have := List.mem_range'_1.mp hmem
      omega)]
  · intro p hp1 hp2
    show ((List.range' ((v.size + P - 1) / P)
      (v.page_count - (v.size + P - 1) / P)).foldl (fun s i => deallocate_page s i) v).pages p =
      none
    rw [deallocFold_pages]
    rw [if_pos (List.mem_range'_1.mpr ⟨hp1, by omega⟩)]

/-- Witness for c8_shrink_to_fit: shrinking the concrete container with an
extra allocated page frees exactly that page. -/
theorem c8_shrink_to_fit_witness :
    ((0 : Nat) < 2 ∧ (cvW4 : CV Nat).size ≤ cvW4.page_count * 2) ∧
    ((shrink_to_fit 2 cvW4).size = cvW4.size ∧
      (shrink_to_fit 2 cvW4).page_capacity = cvW4.page_capacity ∧
      (shrink_to_fit 2 cvW4).page_count = (cvW4.size + 2 - 1) / 2 ∧
      (∀ k < cvW4.size, readG 2 (shrink_to_fit 2 cvW4) k = readG 2 cvW4 k) ∧
      (∀ p, (cvW4.size + 2 - 1) / 2 ≤ p → p < cvW4.page_count →
        (shrink_to_fit 2 cvW4).pages p = none)) :=
  ⟨⟨by decide, by decide⟩, c8_shrink_to_fit 2 cvW4 (by decide) (by decide)⟩

/-! Lemmas for the page-batched erase shift. -/

theorem readG_global {α : Type} (P : Nat) (v : CV α) (p e : Nat) (he : e < P) :
    readG P v (p * P + e) = readSlot v p e := by
  unfold readG
  have hdiv : (p * P + e) / P = p := by
    rw [Nat.mul_comm, Nat.mul_add_div (Nat.lt_of_le_of_lt (Nat.zero_le e) he),
      Nat.div_eq_of_lt he, Nat.add_zero]
  have hmod : (p * P + e) % P = e := by
    rw [Nat.mul_comm, Nat.mul_add_mod, Nat.mod_eq_of_lt he]
  rw [hdiv, hmod]

theorem batchMove_size {α : Type} :
    ∀ (k se de sp dp : Nat) (v : CV α), (batchMove k sp se dp de v).size = v.size := by
  intro k
  induction k with
  | zero => intro se de sp dp v; rfl
  | succ k ih =>
    intro se de sp dp v
    show (batchMove k sp (se + 1) dp (de + 1) _).size = v.size
    rw [ih, setSlot_size, setSlot_size]

theorem batchMove_page_count {α : Type} :
    ∀ (k se de sp dp : Nat) (v : CV α), (batchMove k sp se dp de v).page_count = v.page_count := by
  intro k
  induction k with
  | zero => intro se de sp dp v; rfl
  | succ k ih =>
    intro se de sp dp v
    show (batchMove k sp (se + 1) dp (de + 1) _).page_count = v.page_count
    rw [ih, setSlot_page_count, setSlot_page_count]

theorem batchMove_page_capacity {α : Type} :
    ∀ (k se de sp dp : Nat) (v : CV α),
      (batchMove k sp se dp de v).page_capacity = v.page_capacity := by
  intro k
  induction k with
  | zero => intro se de sp dp v; rfl
  | succ k ih =>
    intro se de sp dp v
    show (batchMove k sp (se + 1) dp (de + 1) _).page_capacity = v.page_capacity
    rw [ih, setSlot_page_capacity, setSlot_page_capacity]

theorem batchMove_pages_isSome {α : Type} :
    ∀ (k se de sp dp : Nat) (v : CV α) (q : Nat),
      ((batchMove k sp se dp de v).pages q).isSome = ((v.pages q)).isSome := by
  intro k
  induction k with
  | zero => intro se de sp dp v q; rfl
  | succ k ih =>
    intro se de sp dp v q
    show ((batchMove k sp (se + 1) dp (de + 1) _).pages q).isSome = _
    rw [ih, setSlot_pages_isSome, setSlot_pages_isSome]

/-- Pointwise effect of one inner batch: slots [d, d + k) receive the old
values of [s, s + k), the tail of the source range [max(s, d + k), s + k)
is left destructed, everything else is untouched (s, d are the global
positions of the source and destination cursors). -/
theorem batchMove_spec {α : Type} (P : Nat) :
    ∀ (k se de sp dp : Nat) (v : CV α),
      se + k ≤ P → de + k ≤ P →
      dp * P + de < sp * P + se →
      (v.pages sp).isSome → (v.pages dp).isSome →
      ∀ g, readG P (batchMove k sp se dp de v) g =
        if dp * P + de ≤ g ∧ g < dp * P + de + k then
          readG P v (g + (sp * P + se - (dp * P + de)))
        else if sp * P + se ≤ g ∧ g < sp * P + se + k then none
        else readG P v g := by
  intro k
  induction k with
  | zero =>
    intro se de sp dp v hse hde hd hps hpd g
    show readG P v g = _
    rw [if_neg (by omega), if_neg (by omega)]
  | succ k ih =>
    intro se de sp dp v hse hde hd hps hpd g
    have hseP : se < P := by omega
    have hdeP : de < P := by omega
    have hpd1 : ((setSlot v dp de (readSlot v sp se)).pages sp).isSome := by
      rw [setSlot_pages_isSome]; exact hps
    have hv2 : ∀ g', readG P (setSlot (setSlot v dp de (readSlot v sp se)) sp se none) g' =
        (if g' = sp * P + se then none
         else if g' = dp * P + de then readG P v (sp * P + se)
         else readG P v g') := by
      intro g'
      by_cases h1 : g' = sp * P + se
      · subst h1
        rw [if_pos rfl]
        exact readG_setSlot_at P _ sp se none hseP hpd1
      · rw [if_neg h1, readG_setSlot_ne P _ sp se g' none hseP h1]
        by_cases h2 : g' = dp * P + de
        · subst h2
          rw [if_pos rfl]
          have hat := readG_setSlot_at P v dp de (readSlot v sp se) hdeP hpd
          rw [hat, readG_global P v sp se hseP]
        · rw [if_neg h2, readG_setSlot_ne P v dp de g' _ hdeP h2]
    show readG P (batchMove k sp (se + 1) dp (de + 1)
      (setSlot (setSlot v dp de (readSlot v sp se)) sp se none)) g = _
    rw [ih (se + 1) (de + 1) sp dp _ (by omega) (by omega) (by omega)
      (by rw [setSlot_pages_isSome, setSlot_pages_isSome]; exact hps)
      (by rw [setSlot_pages_isSome, setSlot_pages_isSome]; exact hpd) g]
    have e1 : sp * P + (se + 1) = (sp * P + se) + 1 := by omega
    have e2 : dp * P + (de + 1) = (dp * P + de) + 1 := by omega
    rw [e1, e2]
    have e3 : sp * P + se + 1 - (dp * P + de + 1) = sp * P + se - (dp * P + de) := by omega
    rw [e3]
    simp only [hv2]
    split_ifs <;> first
      | rfl
      | omega
      | (congr 1; omega)

/-- Unfolding equation for one iteration of the erase move loop. -/
theorem moveLoopF_succ {α : Type} (P fuel cnt src dst : Nat) (v : CV α) (hc : cnt ≠ 0) :
    moveLoopF P (fuel + 1) cnt src dst v =
      moveLoopF P fuel (cnt - min cnt (min (P - src % P) (P - dst % P)))
        (src + min cnt (min (P - src % P) (P - dst % P)))
        (dst + min cnt (min (P - src % P) (P - dst % P)))
        (batchMove (min cnt (min (P - src % P) (P - dst % P)))
          (src / P) (src % P) (dst / P) (dst % P) v) := by
  conv_lhs => rw [moveLoopF]
  rw [if_neg hc]

/-- Pointwise effect of the whole erase move loop: with fuel at least the
element count, slots [dst, dst + cnt) receive the old values of
[src, src + cnt), the source slots not overwritten (those at or above
max(src, dst + cnt)) are left destructed, and everything else is
untouched. -/
theorem moveLoopF_spec {α : Type} (P : Nat) (h0 : 0 < P) :
    ∀ (fuel cnt src dst : Nat) (v : CV α),
      cnt ≤ fuel → dst < src →
      (∀ g, g < src + cnt → ((v.pages (g / P)).isSome)) →
      ∀ g, readG P (moveLoopF P fuel cnt src dst v) g =
        if dst ≤ g ∧ g < dst + cnt then readG P v (g + (src - dst))
        else if src ≤ g ∧ g < src + cnt then none
        else readG P v g := by
  intro fuel
  induction fuel with
  | zero =>
    intro cnt src dst v hcnt hds hpages g
    have hc0 : cnt = 0 := by omega
    subst hc0
    show readG P v g = _
    rw [if_neg (by omega), if_neg (by omega)]
  | succ fuel ih =>
    intro cnt src dst v hcnt hds hpages g
    by_cases hc0 : cnt = 0
    · subst hc0
      rw [moveLoopF, if_pos rfl, if_neg (by omega), if_neg (by omega)]
    · have hsrc : src / P * P + src % P = src := by
        rw [Nat.mul_comm]; exact Nat.div_add_mod src P
      have hdst : dst / P * P + dst % P = dst := by
        rw [Nat.mul_comm]; exact Nat.div_add_mod dst P
      have hb1 : 1 ≤ min cnt (min (P - src % P) (P - dst % P)) := by
        have h1 : src % P < P := Nat.mod_lt _ h0
        have h2 : dst % P < P := Nat.mod_lt _ h0
        omega
      have hble : min cnt (min (P - src % P) (P - dst % P)) ≤ cnt := Nat.min_le_left _ _
      have hv1 : ∀ g', readG P (batchMove (min cnt (min (P - src % P) (P - dst % P)))
          (src / P) (src % P) (dst / P) (dst % P) v) g' =
          (if dst ≤ g' ∧ g' < dst + min cnt (min (P - src % P) (P - dst % P)) then
            readG P v (g' + (src - dst))
          else if src ≤ g' ∧ g' < src + min cnt (min (P - src % P) (P - dst % P)) then none
          else readG P v g') := by
        intro g'
        have hspec := batchMove_spec P (min cnt (min (P - src % P) (P - dst % P)))
          (src % P) (dst % P) (src / P) (dst / P) v
          (by omega) (by omega) (by rw [hsrc, hdst]; exact hds)
          (hpages src (by omega)) (hpages dst (by omega)) g'
        rw [hsrc, hdst] at hspec
        exact hspec
      rw [moveLoopF_succ P fuel cnt src dst v hc0]
      rw [ih _ _ _ _ (by omega) (by omega)
        (by
          intro g' hg'
          rw [batchMove_pages_isSome]
          exact hpages g' (by omega)) g]
      have e4 : src + min cnt (min (P - src % P) (P - dst % P)) -
          (dst + min cnt (min (P - src % P) (P - dst % P))) = src - dst := by omega
      rw [e4]
      simp only [hv1]
      split_ifs <;> first
        | rfl
        | omega
        | (congr 1; omega)

/-- Equation form of erase with the index translation resolved to
division and modulo. -/
theorem erase_eq {α : Type} (P : Nat) (v : CV α) (i : Nat) (h0 : 0 < P) :
    erase P v i =
      ({ moveLoopF P (v.size - 1 - i) (v.size - 1 - i) (i + 1) i
          (setSlot v (i / P) (i % P) none) with size := v.size - 1 }, i) := by
  unfold erase
  show ({ moveLoopF P (v.size - 1 - i) (v.size - 1 - i) (i + 1) i
      (setSlot v (get_page_and_element_indices P i).1 (get_page_and_element_indices P i).2 none)
      with size := v.size - 1 }, i) = _
  rw [gpei_eq _ _ h0]

/-- C1: erase at a valid position i destructs the element at i, shifts
every following element one slot toward i (the contents become
a0..a(i-1), a(i+1)..a(n-1)), leaves the vacated last slot destructed,
decrements the size to n - 1, and returns an iterator at position i that
dereferences to the old a(i+1) when i < n - 1 and equals end() when
i = n - 1. -/
theorem c1_erase {α : Type} (P : Nat) (v : CV α) (i : Nat) (h0 : 0 < P)
    (hsz : v.size ≤ v.page_count * P) (hpg : ∀ j < v.page_count, (v.pages j).isSome)
    (hi : i < v.size) :
    (erase P v i).1.size = v.size - 1 ∧
    (∀ k < i, readG P (erase P v i).1 k = readG P v k) ∧
    (∀ k, i ≤ k → k < v.size - 1 → readG P (erase P v i).1 k = readG P v (k + 1)) ∧
    readG P (erase P v i).1 (v.size - 1) = none ∧
    (erase P v i).2 = i ∧
    (i < v.size - 1 → iterDeref P (erase P v i).1 i = readG P v (i + 1)) ∧
    (i = v.size - 1 → (erase P v i).2 = end_index (erase P v i).1) := by
  have hglobI : i / P * P + i % P = i := by
    rw [Nat.mul_comm]; exact Nat.div_add_mod i P
  have hpI : (v.pages (i / P)).isSome := by
    apply hpg
    apply Nat.div_lt_of_lt_mul
    calc i < v.size := hi
    _ ≤ v.page_count * P := hsz
    _ = P * v.page_count := Nat.mul_comm _ _
  have hv1i : readG P (setSlot v (i / P) (i % P) none) i = none := by
    have := readG_setSlot_at P v (i / P) (i % P) none (Nat.mod_lt _ h0) hpI
    rw [hglobI] at this
    exact this
  have hv1 : ∀ g, g ≠ i → readG P (setSlot v (i / P) (i % P) none) g = readG P v g := by
    intro g hg
    exact readG_setSlot_ne P v (i / P) (i % P) g none (Nat.mod_lt _ h0) (by rw [hglobI]; omega)
  have hpages1 : ∀ g, g < (i + 1) + (v.size - 1 - i) →
      (((setSlot v (i / P) (i % P) none).pages (g / P)).isSome) := by
    intro g hg
    rw [setSlot_pages_isSome]
    apply hpg
    apply Nat.div_lt_of_lt_mul
    calc g < (i + 1) + (v.size - 1 - i) := hg
    _ ≤ v.size := by omega
    _ ≤ v.page_count * P := hsz
    _ = P * v.page_count := Nat.mul_comm _ _
  have hspec := moveLoopF_spec P h0 (v.size - 1 - i) (v.size - 1 - i) (i + 1) i
    (setSlot v (i / P) (i % P) none) (Nat.le_refl _) (by omega) hpages1
  rw [erase_eq P v i h0]
  refine ⟨rfl, ?_, ?_, ?_, rfl, ?_, ?_⟩
  · intro k hk
    rw [readG_set_size, hspec k, if_neg (by omega), if_neg (by omega)]
    exact hv1 k (by omega)
  · intro k hk1 hk2
    rw [readG_set_size, hspec k, if_pos (by omega : i ≤ k ∧ k < i + (v.size - 1 - i))]
    have e1 : k + (i + 1 - i) = k + 1 := by omega
    rw [e1]
    exact hv1 (k + 1) (by omega)
  · by_cases hlast : i = v.size - 1
    · rw [readG_set_size, hspec (v.size - 1), if_neg (by omega), if_neg (by omega)]
      rw [← hlast]
      exact hv1i
    · rw [readG_set_size, hspec (v.size - 1), if_neg (by omega),
        if_pos (by omega : i + 1 ≤ v.size - 1 ∧ v.size - 1 < (i + 1) + (v.size - 1 - i))]
  · intro h
    unfold iterDeref
    rw [if_pos (show i < ({ moveLoopF P (v.size - 1 - i) (v.size - 1 - i) (i + 1) i
        (setSlot v (i / P) (i % P) none) with size := v.size - 1 } : CV α).size from h),
      readIdx_eq_readG _ _ _ h0, readG_set_size, hspec i,
      if_pos (by omega : i ≤ i ∧ i < i + (v.size - 1 - i))]
    have e1 : i + (i + 1 - i) = i + 1 := by omega
    rw [e1]
    exact hv1 (i + 1) (by omega)
  · intro h
    show i = v.size - 1
    exact h

/-- Witness for c1_erase: erasing index 1 of the concrete container
holding 10, 11, 12 with PAGE_SIZE 2 yields 10, 12 and an iterator at
position 1 dereferencing to 12. -/
theorem c1_erase_witness :
    ((0 : Nat) < 2 ∧ (cvW3 : CV Nat).size ≤ cvW3.page_count * 2 ∧ (1 : Nat) < cvW3.size) ∧
    ((erase 2 cvW3 1).1.size = cvW3.size - 1 ∧
      (∀ k < 1, readG 2 (erase 2 cvW3 1).1 k = readG 2 cvW3 k) ∧
      (∀ k, 1 ≤ k → k < cvW3.size - 1 → readG 2 (erase 2 cvW3 1).1 k = readG 2 cvW3 (k + 1)) ∧
      readG 2 (erase 2 cvW3 1).1 (cvW3.size - 1) = none ∧
      (erase 2 cvW3 1).2 = 1 ∧
      (1 < cvW3.size - 1 → iterDeref 2 (erase 2 cvW3 1).1 1 = readG 2 cvW3 2) ∧
      (1 = cvW3.size - 1 → (erase 2 cvW3 1).2 = end_index (erase 2 cvW3 1).1)) :=
  ⟨⟨by decide, by decide, by decide⟩,
    c1_erase 2 cvW3 1 (by decide) (by decide) (by decide) (by decide)⟩

/-! Preservation lemmas for the remaining loops, toward the reachable-state
invariant. -/

theorem foldl_proj {α β γ : Type} (π : CV α → γ) (f : CV α → β → CV α)
    (h : ∀ s b, π (f s b) = π s) :
    ∀ (l : List β) (v : CV α), π (l.foldl f v) = π v := by
  intro l
  induction l with
  | nil => intro v; rfl
  | cons a t ih =>
    intro v
    show π (t.foldl f (f v a)) = π v
    rw [ih, h]

theorem fillLoop_page_count {α : Type} (P : Nat) :
    ∀ (fuel cur stop : Nat) (x : Option α) (v : CV α),
      (fillLoop P fuel cur stop x v).page_count = v.page_count := by
  intro fuel
  induction fuel with
  | zero => intro cur stop x v; rfl
  | succ fuel ih =>
    intro cur stop x v
    rw [fillLoop]
    by_cases h : stop ≤ cur
    · rw [if_pos h]
    · rw [if_neg h, ih]
      exact foldl_proj (fun s => s.page_count) _
        (fun s b => setSlot_page_count s _ _ _) _ v

theorem fillLoop_page_capacity {α : Type} (P : Nat) :
    ∀ (fuel cur stop : Nat) (x : Option α) (v : CV α),
      (fillLoop P fuel cur stop x v).page_capacity = v.page_capacity := by
  intro fuel
  induction fuel with
  | zero => intro cur stop x v; rfl
  | succ fuel ih =>
    intro cur stop x v
    rw [fillLoop]
    by_cases h : stop ≤ cur
    · rw [if_pos h]
    · rw [if_neg h, ih]
      exact foldl_proj (fun s => s.page_capacity) _
        (fun s b => setSlot_page_capacity s _ _ _) _ v

theorem fillLoop_size {α : Type} (P : Nat) :
    ∀ (fuel cur stop : Nat) (x : Option α) (v : CV α),
      (fillLoop P fuel cur stop x v).size = v.size := by
  intro fuel
  induction fuel with
  | zero => intro cur stop x v; rfl
  | succ fuel ih =>
    intro cur stop x v
    rw [fillLoop]
    by_cases h : stop ≤ cur
    · rw [if_pos h]
    · rw [if_neg h, ih]
      exact foldl_proj (fun s => s.size) _ (fun s b => setSlot_size s _ _ _) _ v

theorem fillLoop_pages_isSome {α : Type} (P : Nat) :
    ∀ (fuel cur stop : Nat) (x : Option α) (v : CV α) (q : Nat),
      ((fillLoop P fuel cur stop x v).pages q).isSome = ((v.pages q)).isSome := by
  intro fuel
  induction fuel with
  | zero => intro cur stop x v q; rfl
  | succ fuel ih =>
    intro cur stop x v q
    rw [fillLoop]
    by_cases h : stop ≤ cur
    · rw [if_pos h]
    · rw [if_neg h, ih]
      exact foldl_proj (fun s => ((s.pages q)).isSome) _
        (fun s b => setSlot_pages_isSome s _ _ _ q) _ v

theorem moveLoopF_page_count {α : Type} (P : Nat) :
    ∀ (fuel cnt src dst : Nat) (v : CV α),
      (moveLoopF P fuel cnt src dst v).page_count = v.page_count := by
  intro fuel
  induction fuel with
  | zero => intro cnt src dst v; rfl
  | succ fuel ih =>
    intro cnt src dst v
    by_cases h : cnt = 0
    · rw [moveLoopF, if_pos h]
    · rw [moveLoopF_succ P fuel cnt src dst v h, ih, batchMove_page_count]

theorem moveLoopF_page_capacity {α : Type} (P : Nat) :
    ∀ (fuel cnt src dst : Nat) (v : CV α),
      (moveLoopF P fuel cnt src dst v).page_capacity = v.page_capacity := by
  intro fuel
  induction fuel with
  | zero => intro cnt src dst v; rfl
  | succ fuel ih =>
    intro cnt src dst v
    by_cases h : cnt = 0
    · rw [moveLoopF, if_pos h]
    · rw [moveLoopF_succ P fuel cnt src dst v h, ih, batchMove_page_capacity]

theorem moveLoopF_pages_isSome {α : Type} (P : Nat) :
    ∀ (fuel cnt src dst : Nat) (v : CV α) (q : Nat),
      ((moveLoopF P fuel cnt src dst v).pages q).isSome = ((v.pages q)).isSome := by
  intro fuel
  induction fuel with
  | zero => intro cnt src dst v q; rfl
  | succ fuel ih =>
    intro cnt src dst v q
    by_cases h : cnt = 0
    · rw [moveLoopF, if_pos h]
    · rw [moveLoopF_succ P fuel cnt src dst v h, ih, batchMove_pages_isSome]

theorem allocate_page_page_capacity {α : Type} (v : CV α) (idx : Nat) :
    (allocate_page v idx).page_capacity = v.page_capacity := rfl

theorem allocN_size {α : Type} :
    ∀ (m : Nat) (v : CV α), (allocN m v).size = v.size := by
  intro m
  induction m with
  | zero => intro v; rfl
  | succ m ih =>
    intro v
    show (allocN m (allocate_page v v.page_count)).size = v.size
    rw [ih, allocate_page_size]

theorem allocN_page_capacity {α : Type} :
    ∀ (m : Nat) (v : CV α), (allocN m v).page_capacity = v.page_capacity := by
  intro m
  induction m with
  | zero => intro v; rfl
  | succ m ih =>
    intro v
    show (allocN m (allocate_page v v.page_count)).page_capacity = v.page_capacity
    rw [ih, allocate_page_page_capacity]

theorem allocN_page_count {α : Type} :
    ∀ (m : Nat) (v : CV α), (allocN m v).page_count = v.page_count + m := by
  intro m
  induction m with
  | zero => intro v; rfl
  | succ m ih =>
    intro v
    show (allocN m (allocate_page v v.page_count)).page_count = v.page_count + (m + 1)
    rw [ih]
    show (if v.page_count ≥ v.page_count then v.page_count + 1 else v.page_count) + m = _
    rw [if_pos (Nat.le_refl _)]
    omega

theorem allocN_pages_isSome {α : Type} :
    ∀ (m : Nat) (v : CV α) (q : Nat),
      ((allocN m v).pages q).isSome =
        (if v.page_count ≤ q ∧ q < v.page_count + m then true else ((v.pages q).isSome)) := by
  intro m
  induction m with
  | zero =>
    intro v q
    rw [if_neg (by omega)]
    rfl
  | succ m ih =>
    intro v q
    show ((allocN m (allocate_page v v.page_count)).pages q).isSome = _
    rw [ih]
    have hpc : (allocate_page v v.page_count).page_count = v.page_count + 1 := by
      show (if v.page_count ≥ v.page_count then v.page_count + 1 else v.page_count) = _
      rw [if_pos (Nat.le_refl _)]
    rw [hpc]
    by_cases h1 : v.page_count + 1 ≤ q ∧ q < v.page_count + 1 + m
    · rw [if_pos h1, if_pos (by omega)]
    · rw [if_neg h1]
      by_cases h2 : q = v.page_count
      · subst h2
        rw [allocate_page_pages_eq, if_pos (by omega)]
        rfl
      · rw [allocate_page_pages_ne _ _ _ h2, if_neg (by omega)]

/-- Ceiling division bounds used by reserve and shrink_to_fit. -/
theorem le_ceil_mul (P n : Nat) (h0 : 0 < P) : n ≤ ((n + P - 1) / P) * P := by
  by_cases hn : n = 0
  · subst hn; exact Nat.zero_le _
  · have harg : n + P - 1 = (n - 1) + P := by omega
    rw [harg, Nat.add_div_right _ h0, Nat.succ_mul]
    have hdm := Nat.div_add_mod (n - 1) P
    have hr : (n - 1) % P < P := Nat.mod_lt _ h0
    have hc : (n - 1) / P * P = P * ((n - 1) / P) := Nat.mul_comm _ _
    omega

theorem ceil_le_of_le_mul (P n m : Nat) (h0 : 0 < P) (h : n ≤ m * P) :
    (n + P - 1) / P ≤ m := by
  by_cases hn : n = 0
  · subst hn
    rw [show (0 : Nat) + P - 1 = P - 1 by omega, Nat.div_eq_of_lt (by omega)]
    exact Nat.zero_le _
  · have harg : n + P - 1 = (n - 1) + P := by omega
    rw [harg, Nat.add_div_right _ h0]
    have : (n - 1) / P < m := by
      apply Nat.div_lt_of_lt_mul
      calc n - 1 < n := by omega
      _ ≤ m * P := h
      _ = P * m := Nat.mul_comm _ _
    omega

theorem lt_ceil_of_lt (P n k : Nat) (h0 : 0 < P) (h : k < n) :
    k / P < (n + P - 1) / P := by
  have hsz1 : 1 ≤ n := by omega
  have harg : n + P - 1 = (n - 1) + P := by omega
  rw [harg, Nat.add_div_right _ h0]
  have : k / P ≤ (n - 1) / P := Nat.div_le_div_right (by omega)
  omega

/-- Bounds on the new page capacity computed by ensure_page_capacity. -/
theorem ensure_cap_bounds {α : Type} (v : CV α) (needed : Nat)
    (hcap : v.page_capacity ≤ max_page_capacity) (hneed : needed ≤ max_page_capacity) :
    needed ≤ (ensure_page_capacity v needed).page_capacity ∧
    v.page_capacity ≤ (ensure_page_capacity v needed).page_capacity ∧
    (ensure_page_capacity v needed).page_capacity ≤ max_page_capacity := by
  obtain ⟨h1, h2, h3, _⟩ := ensure_page_capacity_spec v needed hcap
    (Nat.lt_of_le_of_lt hneed max_page_capacity_lt_W)
  by_cases hno : needed ≤ v.page_capacity
  · rw [h1 hno]
    exact ⟨hno, Nat.le_refl _, hcap⟩
  · have hlt : v.page_capacity < needed := by omega
    by_cases h0 : v.page_capacity = 0
    · rw [h2 hlt h0]
      exact ⟨Nat.le_refl _, by omega, hneed⟩
    · rw [h3 hlt (by omega)]
      by_cases hg : max_page_capacity < v.page_capacity + v.page_capacity / 2
      · rw [if_pos hg]
        exact ⟨hneed, hcap, Nat.le_refl _⟩
      · rw [if_neg hg]
        by_cases hgn : v.page_capacity + v.page_capacity / 2 < needed
        · rw [if_pos hgn]
          exact ⟨Nat.le_refl _, by omega, hneed⟩
        · rw [if_neg hgn]
          exact ⟨by omega, by omega, by omega⟩

/-! Invariant preservation, one lemma per public operation. -/

theorem inv_empty {α : Type} (P : Nat) : Inv P (emptyCV : CV α) :=
  ⟨Nat.zero_le _, Nat.le_refl _, fun i hi => absurd hi (Nat.not_lt_zero i), Nat.zero_le _⟩

theorem emplace_back_size {α : Type} (P : Nat) (v : CV α) (a : α) (h0 : 0 < P) :
    (emplace_back P v a).size = v.size + 1 := by
  rw [emplace_back_eq P v a h0]

theorem emplace_back_page_count_eq {α : Type} (P : Nat) (v : CV α) (a : α) (h0 : 0 < P) :
    (emplace_back P v a).page_count = (ensure_capacity_for_one_more P v).page_count := by
  rw [emplace_back_eq P v a h0]
  exact setSlot_page_count _ _ _ _

theorem emplace_back_page_capacity_eq {α : Type} (P : Nat) (v : CV α) (a : α) (h0 : 0 < P) :
    (emplace_back P v a).page_capacity = (ensure_capacity_for_one_more P v).page_capacity := by
  rw [emplace_back_eq P v a h0]
  exact setSlot_page_capacity _ _ _ _

theorem ensure_one_more_page_capacity {α : Type} (P : Nat) (v : CV α) :
    (ensure_capacity_for_one_more P v).page_capacity =
      (if v.size / P ≥ v.page_count then
        (ensure_page_capacity v (v.size / P + 1)).page_capacity
      else v.page_capacity) := by
  unfold ensure_capacity_for_one_more
  by_cases h : v.size / P ≥ v.page_count
  · rw [if_pos h, if_pos h, allocate_page_page_capacity]
  · rw [if_neg h, if_neg h]

theorem inv_emplace {α : Type} (P : Nat) (v : CV α) (a : α) (h0 : 0 < P)
    (hv : Inv P v) (hmax : v.size < max_size P) : Inv P (emplace_back P v a) := by
  obtain ⟨h1, h2, h3, h4⟩ := hv
  obtain ⟨hw1, hw2⟩ := emplace_back_wf P v a h0 h1 h3
  have hneed : v.size / P + 1 ≤ max_page_capacity := by
    have : v.size / P < max_page_capacity := by
      apply Nat.div_lt_of_lt_mul
      calc v.size < max_size P := hmax
      _ = max_page_capacity * P := rfl
      _ = P * max_page_capacity := Nat.mul_comm _ _
    omega
  have hb := ensure_cap_bounds v (v.size / P + 1) h4 hneed
  refine ⟨hw1, ?_, hw2, ?_⟩
  · rw [emplace_back_page_count_eq P v a h0, emplace_back_page_capacity_eq P v a h0,
      ensure_one_more_page_count, ensure_one_more_page_capacity]
    by_cases h : v.size / P ≥ v.page_count
    · rw [if_pos h, if_pos h]
      exact hb.1
    · rw [if_neg h, if_neg h]
      exact h2
  · rw [emplace_back_page_capacity_eq P v a h0, ensure_one_more_page_capacity]
    by_cases h : v.size / P ≥ v.page_count
    · rw [if_pos h]
      exact hb.2.2
    · rw [if_neg h]
      exact h4

theorem inv_pop {α : Type} (P : Nat) (v : CV α) (h0 : 0 < P) (hv : Inv P v) :
    Inv P (pop_back P v) := by
  obtain ⟨h1, h2, h3, h4⟩ := hv
  rw [pop_back_eq P v h0]
  refine ⟨?_, ?_, ?_, ?_⟩
  · show v.size - 1 ≤ (setSlot _ _ _ _).page_count * P
    rw [setSlot_page_count]
    omega
  · show (setSlot _ _ _ _).page_count ≤ (setSlot _ _ _ _).page_capacity
    rw [setSlot_page_count, setSlot_page_capacity]
    exact h2
  · intro i hi
    show ((setSlot _ _ _ _).pages i).isSome
    rw [setSlot_pages_isSome]
    apply h3
    have : ({ setSlot v ((v.size - 1) / P) ((v.size - 1) % P) none
        with size := v.size - 1 } : CV α).page_count = v.page_count :=
      setSlot_page_count _ _ _ _
    rw [this] at hi
    exact hi
  · show (setSlot _ _ _ _).page_capacity ≤ max_page_capacity
    rw [setSlot_page_capacity]
    exact h4

theorem reserve_eq_grow {α : Type} (P : Nat) (v : CV α) (n : Nat) (h : ¬n ≤ capacity P v) :
    reserve P v n =
      allocN ((n + P - 1) / P - (ensure_page_capacity v ((n + P - 1) / P)).page_count)
        (ensure_page_capacity v ((n + P - 1) / P)) := by
  unfold reserve
  rw [if_neg h]

theorem inv_reserve {α : Type} (P : Nat) (v : CV α) (n : Nat) (h0 : 0 < P)
    (hv : Inv P v) (hn : n ≤ max_size P) :
    Inv P (reserve P v n) ∧ n ≤ capacity P (reserve P v n) ∧ (reserve P v n).size = v.size := by
  obtain ⟨h1, h2, h3, h4⟩ := hv
  by_cases h : n ≤ capacity P v
  · have he : reserve P v n = v := by
      unfold reserve
      rw [if_pos h]
    rw [he]
    exact ⟨⟨h1, h2, h3, h4⟩, h, rfl⟩
  · rw [reserve_eq_grow P v n h]
    have hneed_le : (n + P - 1) / P ≤ max_page_capacity :=
      ceil_le_of_le_mul P n max_page_capacity h0 hn
    have hb := ensure_cap_bounds v ((n + P - 1) / P) h4 hneed_le
    have hcaplt : v.page_count * P < n := by
      have : capacity P v < n := by omega
      exact this
    have hpcle : v.page_count ≤ (n + P - 1) / P := by
      have hle : n ≤ ((n + P - 1) / P) * P := le_ceil_mul P n h0
      by_contra hcon
      have : (n + P - 1) / P < v.page_count := by omega
      have : ((n + P - 1) / P) * P ≤ v.page_count * P := Nat.mul_le_mul_right _ (by omega)
      omega
    have hpc : (allocN ((n + P - 1) / P - (ensure_page_capacity v ((n + P - 1) / P)).page_count)
        (ensure_page_capacity v ((n + P - 1) / P))).page_count = (n + P - 1) / P := by
      rw [allocN_page_count, ensure_page_count]
      omega
    have hcap : (allocN ((n + P - 1) / P - (ensure_page_capacity v ((n + P - 1) / P)).page_count)
        (ensure_page_capacity v ((n + P - 1) / P))).page_capacity =
        (ensure_page_capacity v ((n + P - 1) / P)).page_capacity := by
      rw [allocN_page_capacity]
    have hsize : (allocN ((n + P - 1) / P - (ensure_page_capacity v ((n + P - 1) / P)).page_count)
        (ensure_page_capacity v ((n + P - 1) / P))).size = v.size := by
      rw [allocN_size, ensure_size]
    refine ⟨⟨?_, ?_, ?_, ?_⟩, ?_, hsize⟩
    · rw [hsize, hpc]
      calc v.size ≤ v.page_count * P := h1
      _ ≤ ((n + P - 1) / P) * P := Nat.mul_le_mul_right _ hpcle
    · rw [hpc, hcap]
      exact hb.1
    · intro i hi
      rw [hpc] at hi
      rw [allocN_pages_isSome]
      by_cases hq : (ensure_page_capacity v ((n + P - 1) / P)).page_count ≤ i ∧
          i < (ensure_page_capacity v ((n + P - 1) / P)).page_count +
            ((n + P - 1) / P - (ensure_page_capacity v ((n + P - 1) / P)).page_count)
      · rw [if_pos hq]
      · rw [if_neg hq]
        rw [ensure_page_count] at hq
        have hiv : i < v.page_count := by omega
        have := ensure_pages_lt v ((n + P - 1) / P) i hiv
        rw [this]
        exact h3 _ hiv
    · rw [hcap]
      exact hb.2.2
    · show n ≤ (allocN _ _).page_count * P
      rw [hpc]
      exact le_ceil_mul P n h0

theorem inv_shrink {α : Type} (P : Nat) (v : CV α) (h0 : 0 < P) (hv : Inv P v) :
    Inv P (shrink_to_fit P v) := by
  obtain ⟨h1, h2, h3, h4⟩ := hv
  have hle : (v.size + P - 1) / P ≤ v.page_count := ceil_le_of_le_mul P v.size _ h0 h1
  rw [shrink_to_fit_eq]
  refine ⟨?_, ?_, ?_, ?_⟩
  · show ((List.range' ((v.size + P - 1) / P) (v.page_count - (v.size + P - 1) / P)).foldl
      (fun s i => deallocate_page s i) v).size ≤ (v.size + P - 1) / P * P
    rw [deallocFold_size]
    exact le_ceil_mul P v.size h0
  · show (v.size + P - 1) / P ≤
      ((List.range' ((v.size + P - 1) / P) (v.page_count - (v.size + P - 1) / P)).foldl
        (fun s i => deallocate_page s i) v).page_capacity
    rw [deallocFold_page_capacity]
    omega
  · intro i hi
    have hi' : i < (v.size + P - 1) / P := hi
    show (((List.range' ((v.size + P - 1) / P) (v.page_count - (v.size + P - 1) / P)).foldl
      (fun s i => deallocate_page s i) v).pages i).isSome
    rw [deallocFold_pages]
    rw [if_neg (by
      intro hmem
      have := List.mem_range'_1.mp hmem
      omega)]
    exact h3 _ (by omega)
  · show ((List.range' ((v.size + P - 1) / P) (v.page_count - (v.size + P - 1) / P)).foldl
      (fun s i => deallocate_page s i) v).page_capacity ≤ max_page_capacity
    rw [deallocFold_page_capacity]
    exact h4

theorem inv_clear {α : Type} (P : Nat) (v : CV α) (hv : Inv P v) : Inv P (clear P v) := by
  obtain ⟨h1, h2, h3, h4⟩ := hv
  refine ⟨Nat.zero_le _, ?_, ?_, ?_⟩
  · show (fillLoop P v.size 0 v.size none v).page_count ≤
      (fillLoop P v.size 0 v.size none v).page_capacity
    rw [fillLoop_page_count, fillLoop_page_capacity]
    exact h2
  · intro i hi
    have hpc : (clear P v).page_count = v.page_count := fillLoop_page_count P v.size 0 v.size none v
    rw [hpc] at hi
    show ((fillLoop P v.size 0 v.size none v).pages i).isSome
    rw [fillLoop_pages_isSome]
    exact h3 _ hi
  · show (fillLoop P v.size 0 v.size none v).page_capacity ≤ max_page_capacity
    rw [fillLoop_page_capacity]
    exact h4

/-- Invariant for the expand branch of resize (either fill value). -/
theorem inv_expand_fill {α : Type} (P : Nat) (v : CV α) (count : Nat) (x : Option α)
    (h0 : 0 < P) (hv : Inv P v) (hc : count ≤ max_size P) :
    Inv P ({ fillLoop P (count - (reserve P v count).size) (reserve P v count).size count x
      (reserve P v count) with size := count }) := by
  obtain ⟨hR, hRcap, hRsz⟩ := inv_reserve P v count h0 hv hc
  obtain ⟨r1, r2, r3, r4⟩ := hR
  refine ⟨?_, ?_, ?_, ?_⟩
  · show count ≤ (fillLoop P _ _ _ _ _).page_count * P
    rw [fillLoop_page_count]
    exact hRcap
  · show (fillLoop P _ _ _ _ _).page_count ≤ (fillLoop P _ _ _ _ _).page_capacity
    rw [fillLoop_page_count, fillLoop_page_capacity]
    exact r2
  · intro i hi
    show ((fillLoop P _ _ _ _ _).pages i).isSome
    rw [fillLoop_pages_isSome]
    apply r3
    have hpc : ({ fillLoop P (count - (reserve P v count).size) (reserve P v count).size count x
        (reserve P v count) with size := count } : CV α).page_count =
        (reserve P v count).page_count :=
      fillLoop_page_count P _ _ _ _ _
    rw [hpc] at hi
    exact hi
  · show (fillLoop P _ _ _ _ _).page_capacity ≤ max_page_capacity
    rw [fillLoop_page_capacity]
    exact r4

/-- Invariant for the shrink branch of resize. -/
theorem inv_shrink_fill {α : Type} (P : Nat) (v : CV α) (count : Nat)
    (hv : Inv P v) (hc : count ≤ v.size) :
    Inv P ({ fillLoop P (v.size - count) count v.size none v with size := count }) := by
  obtain ⟨h1, h2, h3, h4⟩ := hv
  refine ⟨?_, ?_, ?_, ?_⟩
  · show count ≤ (fillLoop P _ _ _ _ _).page_count * P
    rw [fillLoop_page_count]
    omega
  · show (fillLoop P _ _ _ _ _).page_count ≤ (fillLoop P _ _ _ _ _).page_capacity
    rw [fillLoop_page_count, fillLoop_page_capacity]
    exact h2
  · intro i hi
    show ((fillLoop P _ _ _ _ _).pages i).isSome
    rw [fillLoop_pages_isSome]
    apply h3
    have hpc : ({ fillLoop P (v.size - count) count v.size none v
        with size := count } : CV α).page_count = v.page_count :=
      fillLoop_page_count P _ _ _ _ _
    rw [hpc] at hi
    exact hi
  · show (fillLoop P _ _ _ _ _).page_capacity ≤ max_page_capacity
    rw [fillLoop_page_capacity]
    exact h4

theorem inv_resize {α : Type} [Inhabited α] (P : Nat) (v : CV α) (count : Nat)
    (h0 : 0 < P) (hv : Inv P v) (hc : count ≤ max_size P) : Inv P (resize P v count) := by
  unfold resize
  by_cases hlt : count < v.size
  · rw [if_pos hlt]
    exact inv_shrink_fill P v count hv (by omega)
  · rw [if_neg hlt]
    by_cases hgt : v.size < count
    · rw [if_pos hgt]
      exact inv_expand_fill P v count (some default) h0 hv hc
    · rw [if_neg hgt]
      obtain ⟨h1, h2, h3, h4⟩ := hv
      have hec : count = v.size := by omega
      exact ⟨by rw [hec]; exact h1, h2, h3, h4⟩

theorem inv_resizeVal {α : Type} (P : Nat) (v : CV α) (count : Nat) (a : α)
    (h0 : 0 < P) (hv : Inv P v) (hc : count ≤ max_size P) : Inv P (resizeVal P v count a) := by
  unfold resizeVal
  by_cases hlt : count < v.size
  · rw [if_pos hlt]
    exact inv_shrink_fill P v count hv (by omega)
  · rw [if_neg hlt]
    by_cases hgt : v.size < count
    · rw [if_pos hgt]
      exact inv_expand_fill P v count (some a) h0 hv hc
    · rw [if_neg hgt]
      obtain ⟨h1, h2, h3, h4⟩ := hv
      have hec : count = v.size := by omega
      exact ⟨by rw [hec]; exact h1, h2, h3, h4⟩

theorem inv_erase {α : Type} (P : Nat) (v : CV α) (i : Nat) (h0 : 0 < P)
    (hv : Inv P v) : Inv P ((erase P v i).1) := by
  obtain ⟨h1, h2, h3, h4⟩ := hv
  rw [erase_eq P v i h0]
  refine ⟨?_, ?_, ?_, ?_⟩
  · show v.size - 1 ≤ (moveLoopF P _ _ _ _ _).page_count * P
    rw [moveLoopF_page_count, setSlot_page_count]
    omega
  · show (moveLoopF P _ _ _ _ _).page_count ≤ (moveLoopF P _ _ _ _ _).page_capacity
    rw [moveLoopF_page_count, moveLoopF_page_capacity, setSlot_page_count,
      setSlot_page_capacity]
    exact h2
  · intro q hq
    show ((moveLoopF P _ _ _ _ _).pages q).isSome
    rw [moveLoopF_pages_isSome, setSlot_pages_isSome]
    apply h3
    have hpc : ({ moveLoopF P (v.size - 1 - i) (v.size - 1 - i) (i + 1) i
        (setSlot v (i / P) (i % P) none) with size := v.size - 1 } : CV α).page_count =
        v.page_count := by
      show (moveLoopF P _ _ _ _ _).page_count = v.page_count
      rw [moveLoopF_page_count, setSlot_page_count]
    rw [hpc] at hq
    exact hq
  · show (moveLoopF P _ _ _ _ _).page_capacity ≤ max_page_capacity
    rw [moveLoopF_page_capacity, setSlot_page_capacity]
    exact h4

theorem inv_erase_unsorted {α : Type} (P : Nat) (v : CV α) (i : Nat) (h0 : 0 < P)
    (hv : Inv P v) : Inv P ((erase_unsorted P v i).1) := by
  by_cases hl : i = v.size - 1
  · unfold erase_unsorted
    rw [if_pos hl]
    exact inv_pop P v h0 hv
  · obtain ⟨h1, h2, h3, h4⟩ := hv
    rw [erase_unsorted_eq_general P v i hl]
    refine ⟨?_, ?_, ?_, ?_⟩
    · show v.size - 1 ≤ (setSlot _ _ _ _).page_count * P
      rw [setSlot_page_count, setSlot_page_count, setSlot_page_count]
      omega
    · show (setSlot _ _ _ _).page_count ≤ (setSlot _ _ _ _).page_capacity
      rw [setSlot_page_count, setSlot_page_count, setSlot_page_count,
        setSlot_page_capacity, setSlot_page_capacity, setSlot_page_capacity]
      exact h2
    · intro q hq
      show ((setSlot _ _ _ _).pages q).isSome
      rw [setSlot_pages_isSome, setSlot_pages_isSome, setSlot_pages_isSome]
      apply h3
      have hpc : ({ setSlot (setSlot (setSlot v (i / P) (i % P) none) (i / P) (i % P)
          (readSlot v ((v.size - 1) / P) ((v.size - 1) % P))) ((v.size - 1) / P)
          ((v.size - 1) % P) none with size := v.size - 1 } : CV α).page_count =
          v.page_count := by
        show (setSlot _ _ _ _).page_count = v.page_count
        rw [setSlot_page_count, setSlot_page_count, setSlot_page_count]
      rw [hpc] at hq
      exact hq
    · show (setSlot _ _ _ _).page_capacity ≤ max_page_capacity
      rw [setSlot_page_capacity, setSlot_page_capacity, setSlot_page_capacity]
      exact h4

theorem size_le_max_size {α : Type} (P : Nat) (v : CV α) (hv : Inv P v) :
    v.size ≤ max_size P := by
  obtain ⟨h1, h2, _, h4⟩ := hv
  calc v.size ≤ v.page_count * P := h1
  _ ≤ v.page_capacity * P := Nat.mul_le_mul_right _ h2
  _ ≤ max_page_capacity * P := Nat.mul_le_mul_right _ h4
  _ = max_size P := rfl

theorem inv_push_fold {α : Type} (P : Nat) (src : CV α) (h0 : 0 < P) :
    ∀ (l : List Nat) (v : CV α), Inv P v → v.size + l.length ≤ max_size P →
      Inv P (l.foldl (fun s k =>
        match readIdx P src k with
        | some a => emplace_back P s a
        | none => s) v) := by
  intro l
  induction l with
  | nil => intro v hv _; exact hv
  | cons a t ih =>
    intro v hv hb
    show Inv P (t.foldl _ (match readIdx P src a with
      | some a' => emplace_back P v a'
      | none => v))
    cases hro : readIdx P src a with
    | none =>
      exact ih v hv (by
        rw [List.length_cons] at hb
        omega)
    | some a' =>
      have hvlt : v.size < max_size P := by
        rw [List.length_cons] at hb
        omega
      apply ih _ (inv_emplace P v a' h0 hv hvlt)
      rw [emplace_back_size P v a' h0]
      rw [List.length_cons] at hb
      omega

theorem inv_copyAssign {α : Type} (P : Nat) (d s : CV α) (h0 : 0 < P)
    (hd : Inv P d) (hs : Inv P s) : Inv P (copyAssign P d s false) := by
  have heq : copyAssign P d s false =
      (List.range s.size).foldl (fun t k =>
        match readIdx P s k with
        | some a => emplace_back P t a
        | none => t) (reserve P (clear P d) s.size) := rfl
  rw [heq]
  have hcl : Inv P (clear P d) := inv_clear P d hd
  have hsmax : s.size ≤ max_size P := size_le_max_size P s hs
  obtain ⟨hR, _, hRsz⟩ := inv_reserve P (clear P d) s.size h0 hcl hsmax
  apply inv_push_fold P s h0 (List.range s.size) _ hR
  rw [List.length_range, hRsz]
  show (0 : Nat) + s.size ≤ max_size P
  omega

/-- C4: every reachable container state satisfies the documented
invariants: size ≤ page_count * PAGE_SIZE, page_count ≤ page_capacity,
every page below page_count is non-null; consequently size() ≤ capacity()
and capacity() is an exact multiple of PAGE_SIZE. -/
theorem c4_reachable_invariants {α : Type} [Inhabited α] (P : Nat) (v : CV α)
    (h0 : 0 < P) (hr : Reach P v) :
    v.size ≤ v.page_count * P ∧ v.page_count ≤ v.page_capacity ∧
    (∀ i < v.page_count, (v.pages i).isSome) ∧
    v.size ≤ capacity P v ∧ P ∣ capacity P v := by
  have hinv : Inv P v := by
    induction hr with
    | empty => exact inv_empty P
    | push w a hw hmax ih => exact inv_emplace P w a h0 ih hmax
    | pop w hw hpos ih => exact inv_pop P w h0 ih
    | reserveStep w n hw hn ih => exact (inv_reserve P w n h0 ih hn).1
    | shrinkStep w hw ih => exact inv_shrink P w h0 ih
    | clearStep w hw ih => exact inv_clear P w ih
    | resizeStep w c hw hc ih => exact inv_resize P w c h0 ih hc
    | resizeValStep w c a hw hc ih => exact inv_resizeVal P w c a h0 ih hc
    | eraseStep w i hw hi ih => exact inv_erase P w i h0 ih
    | eraseUnsortedStep w i hw hi ih => exact inv_erase_unsorted P w i h0 ih
    | copyAssignStep d s hd hs ihd ihs => exact inv_copyAssign P d s h0 ihd ihs
    | moveAssignDst d s hd hs ihd ihs => exact ihs
    | moveAssignSrc d s hd hs ihd ihs => exact inv_empty P
  obtain ⟨h1, h2, h3, _⟩ := hinv
  exact ⟨h1, h2, h3, h1, ⟨v.page_count, Nat.mul_comm _ _⟩⟩

/-- Witness for c4_reachable_invariants: a container reached by two pushes
and one pop with PAGE_SIZE 4. -/
theorem c4_reachable_invariants_witness :
    ((0 : Nat) < 4) ∧
    ((pop_back 4 (emplace_back 4 (emplace_back 4 (emptyCV : CV Nat) 5) 6)).size ≤
        (pop_back 4 (emplace_back 4 (emplace_back 4 (emptyCV : CV Nat) 5) 6)).page_count * 4 ∧
      (pop_back 4 (emplace_back 4 (emplace_back 4 (emptyCV : CV Nat) 5) 6)).page_count ≤
        (pop_back 4 (emplace_back 4 (emplace_back 4 (emptyCV : CV Nat) 5) 6)).page_capacity ∧
      (∀ i < (pop_back 4 (emplace_back 4 (emplace_back 4 (emptyCV : CV Nat) 5) 6)).page_count,
        ((pop_back 4 (emplace_back 4 (emplace_back 4 (emptyCV : CV Nat) 5) 6)).pages i).isSome) ∧
      (pop_back 4 (emplace_back 4 (emplace_back 4 (emptyCV : CV Nat) 5) 6)).size ≤
        capacity 4 (pop_back 4 (emplace_back 4 (emplace_back 4 (emptyCV : CV Nat) 5) 6)) ∧
      4 ∣ capacity 4 (pop_back 4 (emplace_back 4 (emplace_back 4 (emptyCV : CV Nat) 5) 6))) :=
  ⟨by decide,
    c4_reachable_invariants 4 _ (by decide)
      (Reach.pop _ (Reach.push _ 6 (Reach.push _ 5 Reach.empty (by decide)) (by decide))
        (by decide))⟩

/-! Lemmas about the debug iterator registry. -/

theorem clearNode_mContainer (it : It) : (clearNode it).mContainer = it.mContainer := rfl

theorem clearNode_nodeContainer (it : It) : (clearNode it).nodeContainer = false := rfl

theorem clearNode_nodeIndex (it : It) : (clearNode it).nodeIndex = it.nodeIndex := rfl

theorem clearNode_mIndex (it : It) : (clearNode it).mIndex = it.mIndex := rfl

theorem reserve_size {α : Type} (P : Nat) (v : CV α) (n : Nat) :
    (reserve P v n).size = v.size := by
  by_cases h : n ≤ capacity P v
  · unfold reserve
    rw [if_pos h]
  · rw [reserve_eq_grow P v n h, allocN_size, ensure_size]

/-- Iterator-object map after _invalidate_iterators_at_or_after: every
listed node whose captured index is at or after pos has its back-reference
cleared; nothing else changes. -/
theorem invalAt_nodes (pos : Nat) :
    ∀ (l : List Nat) (nodes : Nat → It) (id : Nat),
      (invalAt pos nodes l).2 id =
        (if id ∈ l ∧ (nodes id).nodeIndex ≥ pos then clearNode (nodes id) else nodes id) := by
  intro l
  induction l with
  | nil =>
    intro nodes id
    rw [if_neg (by simp)]
    rfl
  | cons a t ih =>
    intro nodes id
    rw [invalAt]
    by_cases hc : (nodes a).nodeIndex ≥ pos
    · rw [if_pos hc, ih]
      by_cases hia : id = a
      · subst hia
        have h1 : updNode nodes id clearNode id = clearNode (nodes id) := by
          unfold updNode
          rw [if_pos rfl]
        rw [h1]
        by_cases hmem : id ∈ t ∧ (clearNode (nodes id)).nodeIndex ≥ pos
        · rw [if_pos hmem, if_pos ⟨List.mem_cons_self id t, hc⟩]
          rfl
        · rw [if_neg hmem, if_pos ⟨List.mem_cons_self id t, hc⟩]
      · have h1 : updNode nodes a clearNode id = nodes id := by
          unfold updNode
          rw [if_neg hia]
        rw [h1]
        by_cases hmem : id ∈ t ∧ (nodes id).nodeIndex ≥ pos
        · rw [if_pos hmem, if_pos ⟨List.mem_cons_of_mem a hmem.1, hmem.2⟩]
        · rw [if_neg hmem, if_neg (by
            intro hcon
            exact hmem ⟨(List.mem_cons.mp hcon.1).resolve_left hia, hcon.2⟩)]
    · rw [if_neg hc]
      show (invalAt pos nodes t).2 id = _
      rw [ih]
      by_cases hia : id = a
      · subst hia
        rw [if_neg (by
            intro hcon
            exact hc hcon.2),
          if_neg (by
            intro hcon
            exact hc hcon.2)]
      · by_cases hmem : id ∈ t ∧ (nodes id).nodeIndex ≥ pos
        · rw [if_pos hmem, if_pos ⟨List.mem_cons_of_mem a hmem.1, hmem.2⟩]
        · rw [if_neg hmem, if_neg (by
            intro hcon
            exact hmem ⟨(List.mem_cons.mp hcon.1).resolve_left hia, hcon.2⟩)]

/-- Registry list after _invalidate_iterators_at_or_after: exactly the
previously listed nodes whose captured index is below pos stay linked. -/
theorem invalAt_list (pos : Nat) :
    ∀ (l : List Nat) (nodes : Nat → It) (id : Nat),
      (id ∈ (invalAt pos nodes l).1 ↔ id ∈ l ∧ (nodes id).nodeIndex < pos) := by
  intro l
  induction l with
  | nil =>
    intro nodes id
    show id ∈ ([] : List Nat) ↔ _
    simp
  | cons a t ih =>
    intro nodes id
    rw [invalAt]
    by_cases hc : (nodes a).nodeIndex ≥ pos
    · rw [if_pos hc, ih]
      have hidx : (updNode nodes a clearNode id).nodeIndex = (nodes id).nodeIndex := by
        unfold updNode
        by_cases h : id = a
        · rw [if_pos h]
          rfl
        · rw [if_neg h]
      rw [hidx]
      constructor
      · rintro ⟨hmt, hlt⟩
        exact ⟨List.mem_cons_of_mem _ hmt, hlt⟩
      · rintro ⟨hmat, hlt⟩
        rcases List.mem_cons.mp hmat with h | h
        · subst h
          omega
        · exact ⟨h, hlt⟩
    · rw [if_neg hc]
      show id ∈ a :: (invalAt pos nodes t).1 ↔ _
      rw [List.mem_cons, ih]
      constructor
      · rintro (h | ⟨hmt, hlt⟩)
        · subst h
          exact ⟨List.mem_cons_self _ _, by omega⟩
        · exact ⟨List.mem_cons_of_mem _ hmt, hlt⟩
      · rintro ⟨hmat, hlt⟩
        rcases List.mem_cons.mp hmat with h | h
        · exact Or.inl h
        · exact Or.inr ⟨h, hlt⟩

/-- C9: at debug level > 0, push_back and reserve leave the registry and
every iterator object untouched and verified use of every registered
iterator still succeeds, while erase, pop_back and size-reducing resize
unlink exactly the registered iterators whose captured index is at or
after the mutation position and clear their back-reference, so that a
subsequent verified use of an invalidated iterator reports the
invalidated fault and a use of a surviving iterator succeeds. -/
theorem c9_debug_registry {α : Type} [Inhabited α] (P : Nat) (w : DW α) (a : α)
    (n count i : Nat) (h0 : 0 < P) (hwf : RegWF w) :
    ((dpush P w a).reg = w.reg ∧ (dpush P w a).nodes = w.nodes ∧
      (∀ id ∈ w.reg, verify w id = VR.ok ∧ verify (dpush P w a) id = VR.ok)) ∧
    ((dreserve P w n).reg = w.reg ∧ (dreserve P w n).nodes = w.nodes ∧
      (∀ id ∈ w.reg, verify (dreserve P w n) id = VR.ok)) ∧
    (i < w.vec.size →
      ∀ id ∈ w.reg,
        (if (w.nodes id).nodeIndex ≥ i then
          id ∉ (derase P w i).reg ∧ verify (derase P w i) id = VR.invalidated
        else id ∈ (derase P w i).reg ∧ verify (derase P w i) id = VR.ok)) ∧
    (0 < w.vec.size →
      ∀ id ∈ w.reg,
        (if (w.nodes id).nodeIndex ≥ w.vec.size - 1 then
          id ∉ (dpop P w).reg ∧ verify (dpop P w) id = VR.invalidated
        else id ∈ (dpop P w).reg ∧ verify (dpop P w) id = VR.ok)) ∧
    (count < w.vec.size →
      ∀ id ∈ w.reg,
        (if (w.nodes id).nodeIndex ≥ count then
          id ∉ (dresize P w count).reg ∧ verify (dresize P w count) id = VR.invalidated
        else id ∈ (dresize P w count).reg ∧ verify (dresize P w count) id = VR.ok)) := by
  have hverify : ∀ (w' : DW α) (id : Nat),
      (w'.nodes id).mContainer = true → (w'.nodes id).nodeContainer = true →
      (w'.nodes id).mIndex ≤ w'.vec.size → verify w' id = VR.ok := by
    intro w' id hm hn hle
    unfold verify
    rw [if_neg (by simp [hm]), if_neg (by simp [hn]), if_neg (by omega)]
  have hverify_inval : ∀ (w' : DW α) (id : Nat),
      (w'.nodes id).mContainer = true → (w'.nodes id).nodeContainer = false →
      verify w' id = VR.invalidated := by
    intro w' id hm hn
    unfold verify
    rw [if_neg (by simp [hm]), if_pos hn]
  refine ⟨⟨rfl, rfl, ?_⟩, ⟨rfl, rfl, ?_⟩, ?_, ?_, ?_⟩
  · intro id hid
    obtain ⟨hm, hn, hidx, hle⟩ := hwf id hid
    have hpsz : (dpush P w a).vec.size = w.vec.size + 1 := emplace_back_size P w.vec a h0
    refine ⟨hverify w id hm hn hle, hverify (dpush P w a) id hm hn ?_⟩
    have hnd : (dpush P w a).nodes id = w.nodes id := rfl
    rw [hnd, hpsz]
    omega
  · intro id hid
    obtain ⟨hm, hn, hidx, hle⟩ := hwf id hid
    have hrsz : (dreserve P w n).vec.size = w.vec.size := reserve_size P w.vec n
    refine hverify (dreserve P w n) id hm hn ?_
    have hnd : (dreserve P w n).nodes id = w.nodes id := rfl
    rw [hnd, hrsz]
    omega
  · intro hi id hid
    obtain ⟨hm, hn, hidx, hle⟩ := hwf id hid
    have hreg : (derase P w i).reg = (invalAt i w.nodes w.reg).1 := rfl
    have hnodes : (derase P w i).nodes = (invalAt i w.nodes w.reg).2 := rfl
    have hsz : (derase P w i).vec.size = w.vec.size - 1 := rfl
    have hnid : (derase P w i).nodes id =
        (if id ∈ w.reg ∧ (w.nodes id).nodeIndex ≥ i then clearNode (w.nodes id)
         else w.nodes id) := by
      rw [hnodes, invalAt_nodes i w.reg w.nodes id]
    by_cases hc : (w.nodes id).nodeIndex ≥ i
    · rw [if_pos hc]
      have hnid' : (derase P w i).nodes id = clearNode (w.nodes id) := by
        rw [hnid, if_pos ⟨hid, hc⟩]
      constructor
      · rw [hreg]
        intro hmem
        have := (invalAt_list i w.reg w.nodes id).mp hmem
        omega
      · exact hverify_inval (derase P w i) id
          (by rw [hnid', clearNode_mContainer]; exact hm)
          (by rw [hnid', clearNode_nodeContainer])
    · rw [if_neg hc]
      have hnid' : (derase P w i).nodes id = w.nodes id := by
        rw [hnid, if_neg (by intro hcon; exact hc hcon.2)]
      constructor
      · rw [hreg]
        exact (invalAt_list i w.reg w.nodes id).mpr ⟨hid, by omega⟩
      · exact hverify (derase P w i) id (by rw [hnid']; exact hm)
          (by rw [hnid']; exact hn) (by rw [hnid', hsz]; omega)
  · intro hpos id hid
    obtain ⟨hm, hn, hidx, hle⟩ := hwf id hid
    have hreg : (dpop P w).reg = (invalAt (w.vec.size - 1) w.nodes w.reg).1 := rfl
    have hnodes : (dpop P w).nodes = (invalAt (w.vec.size - 1) w.nodes w.reg).2 := rfl
    have hsz : (dpop P w).vec.size = w.vec.size - 1 := rfl
    have hnid : (dpop P w).nodes id =
        (if id ∈ w.reg ∧ (w.nodes id).nodeIndex ≥ w.vec.size - 1 then clearNode (w.nodes id)
         else w.nodes id) := by
      rw [hnodes, invalAt_nodes (w.vec.size - 1) w.reg w.nodes id]
    by_cases hc : (w.nodes id).nodeIndex ≥ w.vec.size - 1
    · rw [if_pos hc]
      have hnid' : (dpop P w).nodes id = clearNode (w.nodes id) := by
        rw [hnid, if_pos ⟨hid, hc⟩]
      constructor
      · rw [hreg]
        intro hmem
        have := (invalAt_list (w.vec.size - 1) w.reg w.nodes id).mp hmem
        omega
      · exact hverify_inval (dpop P w) id
          (by rw [hnid', clearNode_mContainer]; exact hm)
          (by rw [hnid', clearNode_nodeContainer])
    · rw [if_neg hc]
      have hnid' : (dpop P w).nodes id = w.nodes id := by
        rw [hnid, if_neg (by intro hcon; exact hc hcon.2)]
      constructor
      · rw [hreg]
        exact (invalAt_list (w.vec.size - 1) w.reg w.nodes id).mpr ⟨hid, by omega⟩
      · exact hverify (dpop P w) id (by rw [hnid']; exact hm)
          (by rw [hnid']; exact hn) (by rw [hnid', hsz]; omega)
  · intro hcnt id hid
    obtain ⟨hm, hn, hidx, hle⟩ := hwf id hid
    have hreg : (dresize P w count).reg = (invalAt (min count count) w.nodes w.reg).1 := rfl
    have hnodes : (dresize P w count).nodes = (invalAt (min count count) w.nodes w.reg).2 := rfl
    rw [Nat.min_self] at hreg hnodes
    have hsz : (dresize P w count).vec.size = count := rfl
    have hnid : (dresize P w count).nodes id =
        (if id ∈ w.reg ∧ (w.nodes id).nodeIndex ≥ count then clearNode (w.nodes id)
         else w.nodes id) := by
      rw [hnodes, invalAt_nodes count w.reg w.nodes id]
    by_cases hc : (w.nodes id).nodeIndex ≥ count
    · rw [if_pos hc]
      have hnid' : (dresize P w count).nodes id = clearNode (w.nodes id) := by
        rw [hnid, if_pos ⟨hid, hc⟩]
      constructor
      · rw [hreg]
        intro hmem
        have := (invalAt_list count w.reg w.nodes id).mp hmem
        omega
      · exact hverify_inval (dresize P w count) id
          (by rw [hnid', clearNode_mContainer]; exact hm)
          (by rw [hnid', clearNode_nodeContainer])
    · rw [if_neg hc]
      have hnid' : (dresize P w count).nodes id = w.nodes id := by
        rw [hnid, if_neg (by intro hcon; exact hc hcon.2)]
      constructor
      · rw [hreg]
        exact (invalAt_list count w.reg w.nodes id).mpr ⟨hid, by omega⟩
      · exact hverify (dresize P w count) id (by rw [hnid']; exact hm)
          (by rw [hnid']; exact hn) (by rw [hnid', hsz]; omega)

/-- Witness for c9_debug_registry on the concrete world dwW with
PAGE_SIZE 2: push and reserve keep both iterators verifiable; erase at 1,
pop_back and resize to 1 invalidate exactly the iterator captured at
index 2. -/
theorem c9_debug_registry_witness :
    ((0 : Nat) < 2 ∧ RegWF dwW) ∧
    (((dpush 2 dwW 5).reg = dwW.reg ∧ (dpush 2 dwW 5).nodes = dwW.nodes ∧
        (∀ id ∈ dwW.reg, verify dwW id = VR.ok ∧ verify (dpush 2 dwW 5) id = VR.ok)) ∧
      ((dreserve 2 dwW 4).reg = dwW.reg ∧ (dreserve 2 dwW 4).nodes = dwW.nodes ∧
        (∀ id ∈ dwW.reg, verify (dreserve 2 dwW 4) id = VR.ok)) ∧
      (1 < dwW.vec.size →
        ∀ id ∈ dwW.reg,
          (if (dwW.nodes id).nodeIndex ≥ 1 then
            id ∉ (derase 2 dwW 1).reg ∧ verify (derase 2 dwW 1) id = VR.invalidated
          else id ∈ (derase 2 dwW 1).reg ∧ verify (derase 2 dwW 1) id = VR.ok)) ∧
      (0 < dwW.vec.size →
        ∀ id ∈ dwW.reg,
          (if (dwW.nodes id).nodeIndex ≥ dwW.vec.size - 1 then
            id ∉ (dpop 2 dwW).reg ∧ verify (dpop 2 dwW) id = VR.invalidated
          else id ∈ (dpop 2 dwW).reg ∧ verify (dpop 2 dwW) id = VR.ok)) ∧
      (1 < dwW.vec.size →
        ∀ id ∈ dwW.reg,
          (if (dwW.nodes id).nodeIndex ≥ 1 then
            id ∉ (dresize 2 dwW 1).reg ∧ verify (dresize 2 dwW 1) id = VR.invalidated
          else id ∈ (dresize 2 dwW 1).reg ∧ verify (dresize 2 dwW 1) id = VR.ok))) :=
  ⟨⟨by decide, by decide⟩, c9_debug_registry 2 dwW 5 4 1 1 (by decide) (by decide)⟩

end ChunkedVec
